import Mathlib

/-!
Verification development for the datafunk toolkit.

This file gives a shallow embedding, in Lean 4, of the four datafunk
utilities (anonymize_microreact.py, curate_lineages.py,
gisaid_json_2_metadata.py, sam_2_fasta.py) and proves properties of the
embedded code.

Conventions of the embedding:
* Python strings are Lean `String`s; character-level work happens on
  `List Char` (`String.data`), with Python's `split`/`strip`/`replace`
  re-implemented faithfully below.
* Python dicts (insertion-ordered) are association lists
  `List (String × α)`; updating an existing key keeps its position,
  a new key is appended at the end, exactly like a Python dict.
* Functions that scan a list with a statically bounded number of steps are
  written with an explicit fuel argument (always instantiated with the
  length of the scanned list) so that they are structurally recursive and
  evaluate inside the kernel.
* Python exceptions (sys.exit, AttributeError, KeyError, ...) are modelled
  with `Except String`; a Python function that can return `None` as a value
  returns an `Option`.
* External services (pycountry lookups, the current date, and the
  travel-history module whose source is not part of this repository) are
  passed in as explicit parameters.
-/

deriving instance DecidableEq for Except

namespace Datafunk

/-! ### Python string primitives -/

/-- Python `str.split(sep)` on a character list: splits at every separator,
keeping empty parts (so `"".split(c) = [""]`). -/
def pySplitChar (sep : Char) (s : List Char) : List (List Char) :=
  s.foldr
    (fun c acc =>
      match acc with
      | [] => [[c]]
      | g :: gs => if c = sep then [] :: g :: gs else (c :: g) :: gs)
    [[]]

/-- Python whitespace for `str.strip()`. -/
def isPySpace (c : Char) : Bool :=
  c = ' ' || c = '\t' || c = '\n' || c = '\x0d' || c = '\x0b' || c = '\x0c'

/-- Python `str.strip()` on a character list. -/
def pyStripChars (s : List Char) : List Char :=
  ((s.dropWhile isPySpace).reverse.dropWhile isPySpace).reverse

/-- Python `str.split(sep)` with a one-character separator. -/
def pySplit (sep : Char) (s : String) : List String :=
  (pySplitChar sep s.data).map (fun l => String.mk l)

/-- Python `str.strip()`. -/
def pyStrip (s : String) : String :=
  String.mk (pyStripChars s.data)

/-- Python `sep.join(parts)`. -/
def joinSep (sep : String) : List String → String
  | [] => ""
  | [x] => x
  | x :: y :: rest => x ++ sep ++ joinSep sep (y :: rest)

/-- Python `s.replace(old, new)` for single characters, on a char list. -/
def pyReplaceChar (old new : Char) (s : List Char) : List Char :=
  s.map (fun c => if c = old then new else c)

/-- Python `s.replace(old, "")` deleting one character everywhere
(used by the converter to strip commas from JSON values). -/
def pyDeleteChar (old : Char) (s : String) : String :=
  String.mk (s.data.filter (fun c => ¬ c = old))

/-! ### Insertion-ordered dictionaries (Python dict semantics) -/

/-- Dictionary lookup with a default, first (= unique) matching key. -/
def aGetD (d : List (String × α)) (k : String) (v₀ : α) : α :=
  match d with
  | [] => v₀
  | (k', v) :: rest => if k' = k then v else aGetD rest k v₀

/-- Dictionary key-membership test. -/
def aHas (d : List (String × α)) (k : String) : Bool :=
  match d with
  | [] => false
  | (k', _) :: rest => k' = k || aHas rest k

/-- Dictionary update: `d[k] = v`. Overwrites in place, appends if new —
exactly a Python dict assignment. -/
def aSet (d : List (String × α)) (k : String) (v : α) : List (String × α) :=
  match d with
  | [] => [(k, v)]
  | (k', v') :: rest => if k' = k then (k, v) :: rest else (k', v') :: aSet rest k v

/-- Python `Counter`/dict counting: add one occurrence of `k`. -/
def bumpCount (d : List (String × Nat)) (k : String) : List (String × Nat) :=
  match d with
  | [] => [(k, 1)]
  | (k', n) :: rest => if k' = k then (k', n + 1) :: rest else (k', n) :: bumpCount rest k

/-- Python `Counter(l)` for a list of strings: counts in first-occurrence
(insertion) order. -/
def counterOf (l : List String) : List (String × Nat) :=
  l.foldl bumpCount []

/-- Metadata record: an insertion-ordered mapping of column names to
string values (one CSV/JSON row). -/
abbrev Record := List (String × String)

/-- Record field read `r[k]`: every call site in the sources accesses keys
guaranteed present (fields are created by `expand_dict` / the row loops),
so a missing key defaults to the empty string. -/
def getF (r : Record) (k : String) : String := aGetD r k ""

/-- Record field write `r[k] = v`. -/
def setF (r : Record) (k : String) (v : String) : Record := aSet r k v

/-! ### anonymize_microreact.py — the adm2 redaction (lines 32–51)

The pseudonym half of `anonymize_microreact` draws random numbers and is
not part of any claim; the embedding below covers the deterministic adm2
tally and redaction exactly as in the source. -/

/-- Embeds the `admn2_counts` tally loop of `anonymize_microreact`:
a dict from adm2 value to its number of occurrences, in first-seen order. -/
def admn2_counts (metadata_list : List Record) : List (String × Nat) :=
  metadata_list.foldl (fun counts entry => bumpCount counts (getF entry "adm2")) []

/-- Embeds the `anonymous_locations` loop: the adm2 values whose count is
strictly below 5 (as a list; the Python `set` is only membership-tested). -/
def anonymous_locations (counts : List (String × Nat)) : List String :=
  (counts.filter (fun p => p.2 < 5)).map (fun p => p.1)

/-- Embeds the redaction loop of `anonymize_microreact`: each record gets an
`anonymized_admn2` field, empty for anonymous locations, copied otherwise. -/
def anonymize_adm2 (metadata_list : List Record) : List Record :=
  let anon := anonymous_locations (admn2_counts metadata_list)
  metadata_list.map (fun entry =>
    if anon.contains (getF entry "adm2") then setF entry "anonymized_admn2" ""
    else setF entry "anonymized_admn2" (getF entry "adm2"))

/-! ### gisaid_json_2_metadata.py — administrative-level derivation (lines 70–124) -/

/-- Fixed list of required vendor fields (module constant `_fields_gisaid`). -/
def fields_gisaid : List String :=
  ["covv_accession_id", "covv_virus_name", "covv_location", "covv_collection_date",
   "covv_add_host_info", "covv_assembly_method", "covv_gender", "covv_host",
   "covv_passage", "covv_patient_age", "covv_seq_technology",
   "covv_specimen", "covv_subm_date"]

/-- Fixed list of required derived fields (module constant `_fields_edin`). -/
def fields_edin : List String :=
  ["edin_admin_0", "edin_admin_1", "edin_admin_2",
   "edin_lineage", "edin_travel",
   "edin_omitted", "edin_date_stamp", "edin_flag"]

/-- Initial value of the module-level optional-fields list `fields`. -/
def fields0 : List String := ["edin_epi_week", "edin_annotation"]

/-- Country names that trigger the United-Kingdom reassignment. -/
def ukCountries : List String := ["England", "Northern Ireland", "Scotland", "Wales"]

/-- Known exceptions that skip the pycountry check. -/
def exceptionCountries : List String :=
  ["Iran", "South Korea", "Russia", "Korea", "Democratic Republic of the Congo"]

/-- Error raised when the lookup fails under `warnings=True`: the keyword
parameter `warnings` of `get_admin_levels_from_json_dict` shadows the
`warnings` module, so `warnings.warn(...)` is an attribute access on a bool. -/
def attributeErrorWarn : String := "AttributeError: bool object has no attribute warn"

/-- Embeds lines 75–83: split `covv_location` on `/`, strip whitespace and
right-pad with empty strings to at least four tokens. -/
def location_strings (r : Record) : List String :=
  let ls := (pySplit '/' (getF r "covv_location")).map pyStrip
  ls ++ List.replicate (4 - ls.length) ""

/-- Embeds lines 80–93 of `get_admin_levels_from_json_dict`: the
(country, subdivision, subsubdivision) triple after the United-Kingdom and
Alaska reassignments, before the pycountry check and the final renamings. -/
def admin_levels_raw (r : Record) : String × String × String :=
  let ls := location_strings r
  let country := ls.getD 1 ""
  let p1 : String × String × String :=
    if ukCountries.contains country then
      ("United Kingdom", ls.getD 1 "", ls.getD 2 "")
    else
      (country, ls.getD 2 "", ls.getD 3 "")
  if p1.1 = "Alaska" then ("USA", ls.getD 1 "", ls.getD 2 "") else p1

/-- Embeds `get_admin_levels_from_json_dict` (lines 70–124).
`validCountries` models the set of country names that
`pycountry.countries.lookup` resolves without raising `LookupError`.
When the lookup fails (country neither a known exception nor valid) with
`warnings = true`, the source calls `warnings.warn(...)` — but the function
parameter `warnings` shadows the module, so the call raises
`AttributeError` and the function never reaches the flag-appending lines;
this is modelled by `Except.error`. -/
def get_admin_levels_from_json_dict (warnings : Bool) (validCountries : List String)
    (gisaid_json_dict : Record) : Except String Record :=
  let p := admin_levels_raw gisaid_json_dict
  let country := p.1
  if warnings && !(exceptionCountries.contains country)
      && !(validCountries.contains country) then
    Except.error attributeErrorWarn
  else
    let country := if country = "United Kingdom" then "UK" else country
    let country := if country = "Korea" then "South Korea" else country
    let country := if country = "Democratic Republic of the Congo" then "DRC" else country
    let d := setF gisaid_json_dict "edin_admin_0" country
    let d := setF d "edin_admin_1" p.2.1
    let d := setF d "edin_admin_2" p.2.2
    Except.ok d

/-! ### curate_lineages.py

Inputs are the two tally dictionaries produced by `make_taxon_objects`:
`acc_name_counts` maps an acctrans cluster to the Counter of old-lineage
labels proposed by its taxa, `lin_acc_counts` maps an old-lineage label to
the Counter of clusters proposing it. Counters are association lists in
first-encounter order, like Python 3.7+ Counters. -/

/-- Stable insertion of one Counter item into a list sorted by descending
count: goes after every earlier item with a count at least as large. -/
def insertDesc (x : String × Nat) : List (String × Nat) → List (String × Nat)
  | [] => [x]
  | y :: rest => if y.2 < x.2 then x :: y :: rest else y :: insertDesc x rest

/-- Python `Counter.most_common()`: items sorted by descending count,
first-encounter order among equal counts (sorted/nlargest are stable). -/
def most_common (c : List (String × Nat)) : List (String × Nat) :=
  c.foldl (fun acc x => insertDesc x acc) []

/-- Python `counter.most_common(1)[0]`: the first-encountered maximal item.
Call sites always pass nonempty counters. -/
def topEntry (c : List (String × Nat)) : String × Nat :=
  (most_common c).headD ("", 0)

/-- The `other_deserving` dict of `rename_lineages`: every other cluster
whose top (most frequent) proposal equals `query_lin`, with its top count. -/
def other_deserving (acc_name_counts : List (String × List (String × Nat)))
    (acc query_lin : String) : List (String × Nat) :=
  (acc_name_counts.filter
      (fun p => decide (¬ p.1 = acc ∧ (topEntry p.2).1 = query_lin))).map
    (fun p => (p.1, (topEntry p.2).2))

/-- The `more_deserving` flag loop of `rename_lineages`: scans the other
clusters' counts in dict order, setting the flag (and raising the running
count) whenever one exceeds it. -/
def moreDeservingFold (count0 : Nat) (others : List (String × Nat)) : Bool :=
  (others.foldl (fun st oc => if st.2 < oc.2 then (true, oc.2) else st)
    (false, count0)).1

/-- The candidate loop of `rename_lineages` (the `for i in range(...)` over
`most_common`): skip empty labels; win a candidate outright when no other
cluster tops it, or when no such cluster outranks this one; otherwise move
to the next candidate. `none` models falling off the end (`new_name` stays
Python `None`). -/
def scanCandidates (acc_name_counts : List (String × List (String × Nat)))
    (acc : String) : List (String × Nat) → Option String
  | [] => none
  | (query_lin, count0) :: rest =>
    if query_lin = "" then scanCandidates acc_name_counts acc rest
    else
      let od := other_deserving acc_name_counts acc query_lin
      if od.isEmpty then some query_lin
      else if moreDeservingFold count0 od then scanCandidates acc_name_counts acc rest
      else some query_lin

/-- Embeds `rename_lineages` (lines 70–135): the first naming pass.
Returns `acc_final_name_dict` (each cluster mapped to its one-element
assignment list) and the `new_names` list (only else-branch names). -/
def rename_lineages (acc_name_counts lin_acc_counts :
    List (String × List (String × Nat))) :
    List (String × List String) × List String :=
  acc_name_counts.foldl
    (fun st p =>
      let acc := p.1
      let poss_lins := p.2
      let relevant_lin := (poss_lins.headD ("", 0)).1
      if poss_lins.length = 1 ∧ ¬ relevant_lin = "" ∧
          (aGetD lin_acc_counts relevant_lin []).length = 1 then
        (st.1 ++ [(acc, [relevant_lin])], st.2)
      else if poss_lins.length = 1 ∧ relevant_lin = "" then
        (st.1 ++ [(acc, [relevant_lin])], st.2)
      else
        let new_name :=
          (scanCandidates acc_name_counts acc (most_common poss_lins)).getD ""
        (st.1 ++ [(acc, [new_name])], st.2 ++ [new_name]))
    ([], [])

/-- The `problem_lins` collection of `deal_with_issues`: non-empty names won
more than once in the first pass, in Counter (first-encounter) order. -/
def problem_lins (new_names : List String) : List String :=
  ((counterOf new_names).filter (fun p => decide (1 < p.2 ∧ ¬ p.1 = ""))).map
    (fun p => p.1)

/-- The per-label contender list of `deal_with_issues`: every cluster whose
current assignment is `lin`, paired with `lin_acc_counts[lin][cluster]`. -/
def contender_tuples (acc_final_name_dict : List (String × List String))
    (lin_acc_counts : List (String × List (String × Nat))) (lin : String) :
    List (String × Nat) :=
  (acc_final_name_dict.filter (fun p => decide (p.2.headD "" = lin))).map
    (fun p => (p.1, aGetD (aGetD lin_acc_counts lin []) p.1 0))

/-- Python `max(list, key=itemgetter(1))[0]`: the first item with maximal
count (max keeps the earliest of equals). Call sites pass nonempty lists. -/
def maxByCount (l : List (String × Nat)) : String :=
  match l with
  | [] => ""
  | x :: rest => (rest.foldl (fun best y => if best.2 < y.2 then y else best) x).1

/-- The inner `for other_option in acc_name_counts[contender]` loop of
`deal_with_issues`: iterates the contender's proposal Counter in insertion
order (NOT by frequency), takes the first non-empty option not in the
static `new_names` list, otherwise leaves the empty string; on an empty
Counter the Python variable `new_name` would be unbound (NameError),
modelled as `none`. -/
def firstOtherOption (new_names : List String) :
    List (String × Nat) → Option String
  | [] => none
  | [(o, _)] =>
    if ¬ o = "" ∧ ¬ (new_names.contains o = true) then some o else some ""
  | (o, _) :: q :: rest =>
    if ¬ o = "" ∧ ¬ (new_names.contains o = true) then some o
    else firstOtherOption new_names (q :: rest)

/-- One step of the contender loop in `deal_with_issues`: the winner keeps
its name, every other contender's entry is replaced by its reassignment. -/
def reassign_contender (new_names : List String)
    (acc_name_counts : List (String × List (String × Nat))) (winner : String)
    (od : Option (List (String × List String))) (contender : String) :
    Option (List (String × List String)) :=
  match od with
  | none => none
  | some d =>
    if contender = winner then some d
    else
      match firstOtherOption new_names (aGetD acc_name_counts contender []) with
      | none => none
      | some nn => some (aSet d contender [nn])

/-- One step of the outer `for uk_lineage, list_of_tuples in problem_lin`
loop of `deal_with_issues`. -/
def process_problem (new_names : List String)
    (acc_name_counts : List (String × List (String × Nat)))
    (od : Option (List (String × List String)))
    (pp : String × List (String × Nat)) : Option (List (String × List String)) :=
  match od with
  | none => none
  | some d =>
    (pp.2.map (fun t => t.1)).foldl
      (reassign_contender new_names acc_name_counts (maxByCount pp.2)) (some d)

/-- Embeds `deal_with_issues` (lines 137–187): the conflict sweep. The
`problem_lin` dict (label to contender tuples) is built from the assignment
dict before any mutation, then each problem label is processed in order. -/
def deal_with_issues (acc_final_name_dict : List (String × List String))
    (new_names : List String)
    (lin_acc_counts acc_name_counts : List (String × List (String × Nat))) :
    Option (List (String × List String)) :=
  let problems := problem_lins new_names
  let problem_pairs := problems.map
    (fun lin => (lin, contender_tuples acc_final_name_dict lin_acc_counts lin))
  problem_pairs.foldl (process_problem new_names acc_name_counts)
    (some acc_final_name_dict)

/-- Python `int(label.lstrip("UK"))`: strip the leading U/K characters,
then the remainder must be a nonempty digit string (otherwise ValueError,
modelled `none`). -/
def parseUKNum (s : String) : Option Nat :=
  let t := s.data.dropWhile (fun c => c = 'U' || c = 'K')
  if ¬ t = [] ∧ t.all Char.isDigit then
    some (t.foldl (fun n c => n * 10 + (c.toNat - 48)) 0)
  else none

/-- Stable ascending insertion (for Python `sorted` on integers). -/
def insertAsc (x : Nat) : List Nat → List Nat
  | [] => [x]
  | y :: rest => if x < y then x :: y :: rest else y :: insertAsc x rest

/-- Python `sorted` on a list of integers. -/
def sortAsc (l : List Nat) : List Nat := l.foldl (fun acc x => insertAsc x acc) []

/-- Nat-keyed Counter bump (for `Counter(sorted_names)`). -/
def bumpCountN (d : List (Nat × Nat)) (k : Nat) : List (Nat × Nat) :=
  match d with
  | [] => [(k, 1)]
  | (k', n) :: rest => if k' = k then (k', n + 1) :: rest else (k', n) :: bumpCountN rest k

/-- Python `Counter` over a list of integers. -/
def counterOfN (l : List Nat) : List (Nat × Nat) := l.foldl bumpCountN []

/-- Embeds `name_new_lineages` (lines 189–226). `used_names` collects the
integer suffixes of all non-empty first-pass assignments (in dict order);
`full_list` is `1..len(used_names)`; `usable_names` are its members not in
`used_names`; clusters with an empty assignment draw the head of
`usable_names` while it lasts and then `len(full_list)+1` (appending to
`full_list` each time). Returns the final name dict and `test_counter`
(the Counter of the sorted used names, checked by the assertions).
`none` models the exceptions: an empty assignment list (IndexError) or a
label whose suffix does not parse as an integer (ValueError). -/
def name_new_lineages (d : List (String × List String)) :
    Option (List (String × String) × List (Nat × Nat)) := do
  let used_names ← d.foldlM
    (fun (acc : List Nat) p =>
      match p.2 with
      | [] => none
      | v :: _ =>
        if v = "" then some acc
        else do
          let n ← parseUKNum v
          some (acc ++ [n]))
    []
  let sorted_names := sortAsc used_names
  let test_counter := counterOfN sorted_names
  let full_list := (List.range used_names.length).map (fun i => i + 1)
  let usable_names := full_list.filter (fun i => !(used_names.contains i))
  let res := d.foldl
    (fun (st : List Nat × Nat × List (String × String)) p =>
      match p.2 with
      | [] => st
      | v :: _ =>
        if v = "" then
          match st.1 with
          | u :: urest => (urest, st.2.1, st.2.2 ++ [(p.1, "UK" ++ toString u)])
          | [] => ([], st.2.1 + 1, st.2.2 ++ [(p.1, "UK" ++ toString (st.2.1 + 1))])
        else (st.1, st.2.1, st.2.2 ++ [(p.1, v)]))
    (usable_names, full_list.length, [])
  some (res.2.2, test_counter)

/-- Embeds the two integrity assertions of `curate_lineages` (lines
278–281): every (winning) name in `test_counter` used once, and every
cluster assigned exactly one label. -/
def curate_asserts (test_counter : List (Nat × Nat))
    (acc_final_name_dict : List (String × List String)) : Bool :=
  test_counter.all (fun p => decide (p.2 = 1)) &&
    acc_final_name_dict.all (fun p => decide (p.2.length = 1))

/-- Specification-side description of the conflict-sweep reassignment: the
first proposal, in the order proposals were first encountered, that is
non-empty and not in the claimed list; empty if none qualifies. -/
def firstUnclaimedInsertionOrder (options : List String) (claimed : List String) :
    String :=
  match options.filter (fun o => decide (¬ o = "" ∧ ¬ (claimed.contains o = true))) with
  | [] => ""
  | o :: _ => o

/-! ### sam_2_fasta.py -/

/-- Uppercase A–Z test, the character class [A-Z] of the regexes. -/
def isUpperAZ (c : Char) : Bool := 'A' ≤ c && c ≤ 'Z'

/-- The dict of CIGAR lambdas (lines 27–35): given an operation code, the
query cursor, the reference cursor, the run length and SEQ, return the new
cursors and the extension. An operation code that is not a key of the dict
is a Python KeyError, modelled as `Except.error`. -/
def lambda_dict (op : Char) (query_start ref_start : Nat) (length : Nat)
    (seq : List Char) : Except String (Nat × Nat × List Char) :=
  if op = 'M' ∨ op = '=' ∨ op = 'X' then
    Except.ok (query_start + length, ref_start + length,
      (seq.drop query_start).take length)
  else if op = 'I' ∨ op = 'S' then
    Except.ok (query_start + length, ref_start, [])
  else if op = 'D' ∨ op = 'N' then
    Except.ok (query_start, ref_start + length, List.replicate length '-')
  else if op = 'H' ∨ op = 'P' then
    Except.ok (query_start, ref_start, [])
  else Except.error "KeyError"

/-- Scanner for re.findall of `\d{1,}[A-Z]{1}` (split_sam_cigar): at a
digit, the maximal digit run must be followed by one uppercase letter;
matches are non-overlapping, left to right. A failed attempt resumes after
the digit run (no shorter suffix of the run can match either). Fuel bounds
the recursion; it is always called with the string length. -/
def split_sam_cigar_fuel : Nat → List Char → List (List Char)
  | 0, _ => []
  | _ + 1, [] => []
  | fuel + 1, c :: rest =>
    if c.isDigit then
      let run := c :: rest.takeWhile Char.isDigit
      let rest2 := rest.dropWhile Char.isDigit
      match rest2 with
      | [] => []
      | b :: rest3 =>
        if isUpperAZ b then (run ++ [b]) :: split_sam_cigar_fuel fuel rest3
        else split_sam_cigar_fuel fuel rest2
    else split_sam_cigar_fuel fuel rest

/-- Embeds split_sam_cigar (lines 59–65). -/
def split_sam_cigar (cigar : List Char) : List (List Char) :=
  split_sam_cigar_fuel cigar.length cigar

/-- Integer value of a digit string (Python int on the regex match). -/
def natOfDigits (l : List Char) : Nat :=
  l.foldl (fun n c => n * 10 + (c.toNat - 48)) 0

/-- Embeds split_sam_cigar_operation (lines 48–56): the operation is the
last character, the size the integer value of the rest. -/
def split_sam_cigar_operation (one_operation : List Char) : Char × Nat :=
  (one_operation.getLastD '?', natOfDigits one_operation.dropLast)

/-- Embeds get_sam_cigar_operations (lines 68–76). -/
def get_sam_cigar_operations (cigar : List Char) : List (Char × Nat) :=
  (split_sam_cigar cigar).map split_sam_cigar_operation

/-- Embeds get_one_string (lines 79–133). parse_sam_line splits the SAM
line into its eleven whitespace-separated fields; only POS (0-based after
pysam conversion, hence an Int), CIGAR and SEQ are consumed, so the
embedding takes those three. `.ok none` is the Python None returned for
POS < 0; `.error` is the KeyError for an operation code missing from
lambda_dict. The state triple is (new_seq, qstart, rstart). -/
def get_one_string (POS : Int) (CIGAR SEQ : List Char) (rlen : Nat) :
    Except String (Option (List Char)) :=
  if POS < 0 then Except.ok none
  else do
    let operations := get_sam_cigar_operations CIGAR
    let st ← operations.foldlM
      (fun (st : List Char × Nat × Nat) o => do
        let r ← lambda_dict o.1 st.2.1 st.2.2 o.2 SEQ
        pure (st.1 ++ r.2.2, r.1, r.2.1))
      (List.replicate POS.toNat '*', 0, POS.toNat)
    pure (some (st.1 ++ List.replicate (rlen - st.1.length) '*'))

/-- Embeds check_and_get_flattened_site (lines 136–149): the ambiguity
marker when more than one read contributes an alphabetic character, else
the maximum character by ordinal. Python max raises on an empty site;
call sites always pass one character per read of a nonempty block, the
empty case here returns a placeholder. -/
def check_and_get_flattened_site (site : List Char) : Char :=
  if 1 < (site.filter Char.isAlpha).length then '&'
  else
    match site with
    | [] => '?'
    | c :: rest => rest.foldl max c

/-- Python zip(*rows): the per-column tuples, truncated at the shortest
row; empty for an empty argument list. Fuel bounds the recursion; it is
called with the first row's length, which bounds the column count. -/
def zipCols_fuel : Nat → List (List Char) → List (List Char)
  | 0, _ => []
  | _ + 1, [] => []
  | fuel + 1, rows =>
    if rows.all (fun r => !r.isEmpty) then
      (rows.map (fun r => r.headD '?')) :: zipCols_fuel fuel (rows.map List.tail)
    else []

/-- Python zip(*rows) over the block's per-read strings. -/
def zipCols (rows : List (List Char)) : List (List Char) :=
  zipCols_fuel (rows.headD []).length rows

/-- The flattened_site_list/seq_flat of get_seq_from_block (lines 189–190)
for a block of two or more reads, before gap normalization. -/
def flatten_block (rows : List (List Char)) : List Char :=
  (zipCols rows).map check_and_get_flattened_site

/-- Scanner for re.findall of `[A-Z]\*+[A-Z]` (the internal pattern of
swap_in_gaps_Ns): a letter, a maximal nonempty sentinel run, a letter.
Matches are non-overlapping: scanning resumes after the closing letter,
which is consumed and cannot open the next match. Fuel bounds the
recursion; it is always called with the string length. -/
def findInternal_fuel : Nat → List Char → List (List Char)
  | 0, _ => []
  | _ + 1, [] => []
  | fuel + 1, a :: rest =>
    if isUpperAZ a then
      let stars := rest.takeWhile (fun c => c = '*')
      let rest2 := rest.dropWhile (fun c => c = '*')
      if stars.isEmpty then findInternal_fuel fuel rest
      else
        match rest2 with
        | [] => []
        | b :: rest3 =>
          if isUpperAZ b then (a :: stars ++ [b]) :: findInternal_fuel fuel rest3
          else findInternal_fuel fuel (b :: rest3)
    else findInternal_fuel fuel rest

/-- re.findall of the internal pattern over a whole string. -/
def findInternal (s : List Char) : List (List Char) :=
  findInternal_fuel s.length s

/-- Match a pattern at the head of a string: the remainder when the string
starts with the pattern. -/
def matchAt : List Char → List Char → Option (List Char)
  | [], s => some s
  | _ :: _, [] => none
  | p :: ps, c :: cs => if p = c then matchAt ps cs else none

/-- Python str.replace(pat, rep): replace every non-overlapping occurrence,
scanning left to right. Call sites never pass an empty pattern. Fuel
bounds the recursion; it is always called with the string length. -/
def replaceSub_fuel (pat rep : List Char) : Nat → List Char → List Char
  | 0, s => s
  | _ + 1, [] => []
  | fuel + 1, c :: cs =>
    match pat with
    | [] => c :: cs
    | _ :: _ =>
      match matchAt pat (c :: cs) with
      | some rest => rep ++ replaceSub_fuel pat rep fuel rest
      | none => c :: replaceSub_fuel pat rep fuel cs

/-- Python s.replace(pat, rep). -/
def replaceSub (s pat rep : List Char) : List Char :=
  replaceSub_fuel pat rep s.length s

/-- re.search of `^\*+[A-Z]`: the leading sentinel run and the letter
right after it, when both are present. -/
def searchLeft (s : List Char) : Option (List Char) :=
  match s.takeWhile (fun c => c = '*'), s.dropWhile (fun c => c = '*') with
  | [], _ => none
  | _ :: _, [] => none
  | st :: stars, b :: _ =>
    if isUpperAZ b then some ((st :: stars) ++ [b]) else none

/-- re.search of `[A-Z]\*+$`: the letter right before the trailing
sentinel run and that run, when both are present. -/
def searchRight (s : List Char) : Option (List Char) :=
  match s.reverse.takeWhile (fun c => c = '*'), s.reverse.dropWhile (fun c => c = '*') with
  | [], _ => none
  | _ :: _, [] => none
  | st :: stars, b :: _ =>
    if isUpperAZ b then some (b :: (st :: stars).reverse) else none

/-- x[0] + x[1:-1].replace('*','N') + x[-1] for one internal match. -/
def rewriteInternal (x : List Char) : List Char :=
  x.take 1 ++ (x.drop 1).dropLast.map (fun c => if c = '*' then 'N' else c)
    ++ x.drop (x.length - 1)

/-- g[:-1].replace('*','-') + g[-1] for the leading match. -/
def rewriteLeft (g : List Char) : List Char :=
  g.dropLast.map (fun c => if c = '*' then '-' else c) ++ g.drop (g.length - 1)

/-- g[0] + g[1:].replace('*','-') for the trailing match. -/
def rewriteRight (g : List Char) : List Char :=
  g.take 1 ++ (g.drop 1).map (fun c => if c = '*' then '-' else c)

/-- Embeds swap_in_gaps_Ns (lines 152–173): replace every findall match of
the internal pattern (each by a replace-all over the current string), then
the leading match, then the trailing match. -/
def swap_in_gaps_Ns (seq : List Char) : List Char :=
  let s1 := (findInternal seq).foldl
    (fun acc x => replaceSub acc x (rewriteInternal x)) seq
  let s2 := match searchLeft s1 with
    | some g => replaceSub s1 g (rewriteLeft g)
    | none => s1
  match searchRight s2 with
  | some g => replaceSub s2 g (rewriteRight g)
  | none => s2

/-- Embeds get_seq_from_block (lines 176–194) at the level of the per-read
reference-coordinate strings (block_lines_sites_list): a single read is
normalized directly, otherwise the per-column flattening is normalized. -/
def get_seq_from_block_rows (rows : List (List Char)) : List Char :=
  match rows with
  | [r] => swap_in_gaps_Ns r
  | _ => swap_in_gaps_Ns (flatten_block rows)

/-- A string with no sentinel characters. -/
def starFree (l : List Char) : Prop := ∀ c ∈ l, ¬ c = '*'

/-- The nine operation codes of lambda_dict (a SAM CIGAR alphabet). -/
def validOps : List Char := ['M', 'I', 'D', 'N', 'S', 'H', 'P', '=', 'X']

/-- Specification-side description of one CIGAR operation's contribution to
the reference-coordinate string, at a given query offset: M/=/X copy from
SEQ (clipped at its end like a Python slice), D/N emit gaps, the rest
nothing. -/
def opExtension (seq : List Char) (qs : Nat) (o : Char × Nat) : List Char :=
  if o.1 = 'M' ∨ o.1 = '=' ∨ o.1 = 'X' then (seq.drop qs).take o.2
  else if o.1 = 'D' ∨ o.1 = 'N' then List.replicate o.2 '-'
  else []

/-- Query positions consumed by one CIGAR operation. -/
def opQuery (o : Char × Nat) : Nat :=
  if o.1 = 'M' ∨ o.1 = '=' ∨ o.1 = 'X' ∨ o.1 = 'I' ∨ o.1 = 'S' then o.2 else 0

/-- Reference positions consumed by one CIGAR operation. -/
def opRef (o : Char × Nat) : Nat :=
  if o.1 = 'M' ∨ o.1 = '=' ∨ o.1 = 'X' ∨ o.1 = 'D' ∨ o.1 = 'N' then o.2 else 0

/-- The concatenated per-operation extensions of a CIGAR operation list in
order, threading the query offset. -/
def extConcat (seq : List Char) (qs : Nat) : List (Char × Nat) → List Char
  | [] => []
  | o :: rest => opExtension seq qs o ++ extConcat seq (qs + opQuery o) rest

/-- Total reference consumption of a CIGAR operation list (the lengths of
its M, D, N, = and X operations). -/
def refConsumedSum (ops : List (Char × Nat)) : Nat := (ops.map opRef).sum

/-! ### gisaid_json_2_metadata.py — the converter pipeline (lines 341–418)

The file-system and external boundaries become parameters: the JSON dump
is the list of parsed per-line objects, the existing registry the list of
its text lines, `omitted_IDs` the set built by parse_omissions_file,
`args_lineages` the table built by get_lineage_info, `today` the current
date, `validCountries` the pycountry table, and the travel-history
resolver a function parameter (its module is not part of this excerpt). -/

/-- Embeds fix_gisaid_json_dict (lines 58–67): every value becomes a
string with its commas removed (values are modelled as strings already). -/
def fix_gisaid_json_dict (d : Record) : Record :=
  d.map (fun p => (p.1, pyDeleteChar ',' p.2))

/-- Embeds expand_dict (lines 146–167): any missing required or optional
field is created with an empty value (appended, like a dict insertion). -/
def expand_dict (d : Record) (fields_list_required fields_list_optional : List String) :
    Record :=
  let d1 := fields_list_required.foldl
    (fun d x => if aHas d x then d else d ++ [(x, "")]) d
  fields_list_optional.foldl (fun d x => if aHas d x then d else d ++ [(x, "")]) d1

/-- Python dict built from key/value pairs in order (later pairs
overwrite earlier ones), as in the comprehensions over zip(keys, l). -/
def dictOfPairs (pairs : List (String × String)) : Record :=
  pairs.foldl (fun d p => aSet d p.1 p.2) []

/-- The record parsed from one CSV data line (lines 183–193): strip the
line, split on commas, zip with the header keys, expand. -/
def csv_row_record (keys freq fopt : List String) (line : String) : Record :=
  expand_dict (dictOfPairs (keys.zip (pySplit ',' (pyStrip line)))) freq fopt

/-- The accession id of one CSV data line's record. -/
def csv_row_id (keys freq fopt : List String) (line : String) : String :=
  getF (csv_row_record keys freq fopt line) "covv_accession_id"

/-- One iteration of the CSV row loop of get_csv_order_and_record_dict:
a field-count mismatch is fatal (sys.exit), otherwise the accession id is
appended to the order and the record stored (overwriting) in the dict. -/
def csv_row_step (keys freq fopt : List String)
    (st : List String × List (String × Record)) (line : String) :
    Except String (List String × List (String × Record)) :=
  if ¬ (pySplit ',' (pyStrip line)).length = keys.length then
    Except.error "Badly formatted csv file"
  else
    let d := csv_row_record keys freq fopt line
    Except.ok (st.1 ++ [getF d "covv_accession_id"],
      aSet st.2 (getF d "covv_accession_id") d)

/-- Embeds get_csv_order_and_record_dict (lines 170–199) over the file's
lines; the first line holds the column names. -/
def get_csv_order_and_record_dict (lines : List String) (freq fopt : List String) :
    Except String (List String × List (String × Record)) :=
  match lines with
  | [] => Except.ok ([], [])
  | header :: rows =>
    rows.foldlM (csv_row_step (pySplit ',' (pyStrip header)) freq fopt) ([], [])

/-- The record parsed from one JSON line (lines 213–216). -/
def json_record (freq fopt : List String) (obj : Record) : Record :=
  expand_dict (fix_gisaid_json_dict obj) freq fopt

/-- Embeds get_json_order_and_record_dict (lines 202–222): accession order
(with duplicates) and a dict in which a later record with the same
accession id overwrites an earlier one. -/
def get_json_order_and_record_dict (jsonObjs : List Record) (freq fopt : List String) :
    List String × List (String × Record) :=
  jsonObjs.foldl
    (fun (st : List String × List (String × Record)) obj =>
      let d := json_record freq fopt obj
      (st.1 ++ [getF d "covv_accession_id"],
        aSet st.2 (getF d "covv_accession_id") d))
    ([], [])

/-- Ten-character window test for one position of re.search of
`\d{4}-\d{2}-\d{2}` (check_gisaid_date). -/
def dateAt (l : List Char) : Bool :=
  match l with
  | d1 :: d2 :: d3 :: d4 :: h1 :: e1 :: e2 :: h2 :: f1 :: f2 :: _ =>
    d1.isDigit && d2.isDigit && d3.isDigit && d4.isDigit && decide (h1 = '-') &&
      e1.isDigit && e2.isDigit && decide (h2 = '-') && f1.isDigit && f2.isDigit
  | _ => false

/-- re.search of the date pattern anywhere in the string. -/
def hasDateMatch : List Char → Bool
  | [] => false
  | c :: rest => dateAt (c :: rest) || hasDateMatch rest

/-- Embeds check_gisaid_date (lines 246–259): on a failed date match,
check_date is appended (colon-joined) to edin_flag. -/
def check_gisaid_date (d : Record) : Record :=
  if hasDateMatch (getF d "covv_collection_date").data then d
  else if getF d "edin_flag" = "" then setF d "edin_flag" "check_date"
  else setF d "edin_flag" (getF d "edin_flag" ++ ":check_date")

/-- Embeds update_edin_lineage_field (lines 262–275): look up by accession
id, else by the third slash token of the virus name (an IndexError when
the name has fewer than three tokens, modelled as an error). -/
def update_edin_lineage_field (d : Record) (lineage_dict : List (String × String)) :
    Except String Record :=
  let ID := getF d "covv_accession_id"
  if aHas lineage_dict ID then
    Except.ok (setF d "edin_lineage" (aGetD lineage_dict ID ""))
  else
    let toks := pySplit '/' (getF d "covv_virus_name")
    if 2 < toks.length then
      let ID2 := toks.getD 2 ""
      if aHas lineage_dict ID2 then
        Except.ok (setF d "edin_lineage" (aGetD lineage_dict ID2 ""))
      else Except.ok d
    else Except.error "IndexError"

/-- Embeds update_edin_omitted_field (lines 278–286); `none` is the
Python `False` used when no omission files were given. -/
def update_edin_omitted_field (d : Record) (omit_set : Option (List String)) : Record :=
  match omit_set with
  | none => d
  | some s =>
    if s.contains (getF d "covv_accession_id") then setF d "edin_omitted" "True"
    else d

/-- Embeds update_edin_date_stamp_field (lines 289–295); the current date
is a parameter. -/
def update_edin_date_stamp_field (today : String) (d : Record) : Record :=
  setF d "edin_date_stamp" today

/-- Embeds get_one_line (lines 298–306), without the trailing newline:
the comma-joined field values in fields_list order. -/
def get_one_line (d : Record) (fields_list : List String) : String :=
  joinSep "," (fields_list.map (fun x => getF d x))

/-- Embeds write_output (lines 309–338) as the list of output lines:
the header, the existing rows in original order, the new rows in JSON
encounter order. -/
def write_output (new_records_list : List String)
    (new_records_dict : List (String × Record))
    (old_records_list : List String) (old_records_dict : List (String × Record))
    (fields_list : List String) : List String :=
  joinSep "," fields_list ::
    (old_records_list.map (fun r => get_one_line (aGetD old_records_dict r []) fields_list) ++
      new_records_list.map (fun r => get_one_line (aGetD new_records_dict r []) fields_list))

/-- Modelled from the spec: the Travel History Resolver
(datafunk/travel_history.py, imported by the converter, is not part of
this repository excerpt). Contract per the spec: one record in, the same
record out with edin_travel (and possibly edin_flag) populated, or left
as the empty string when no travel signal is found. The pipeline takes
the resolver as a function parameter; this default model finds no travel
signal and returns the record unchanged. -/
def get_travel_history_spec (d : Record) : Record := d

/-- Lines 356–366: check the existing registry's header for the required
fields and extend the optional-fields list with its extra columns. -/
def gisaid_fields_ext (args_csv : Option (List String)) : Except String (List String) :=
  match args_csv with
  | none => Except.ok fields0
  | some csv_lines =>
    let csv_header := pySplit ',' (pyStrip (csv_lines.headD ""))
    if ¬ (fields_gisaid ++ fields_edin).all (fun x => csv_header.contains x) then
      Except.error "There were missing mandatory fields"
    else
      Except.ok (csv_header.foldl
        (fun fs x =>
          if (fields_gisaid ++ fields_edin).contains x then fs
          else if fs.contains x then fs else fs ++ [x])
        fields0)

/-- Lines 369–378: load the existing registry, or nothing. -/
def gisaid_old (args_csv : Option (List String)) (fieldsExt : List String) :
    Except String (List String × List (String × Record)) :=
  match args_csv with
  | none => Except.ok ([], [])
  | some csv_lines =>
    get_csv_order_and_record_dict csv_lines (fields_gisaid ++ fields_edin) fieldsExt

/-- One enrichment stage applied to every new record (the dict
comprehensions of lines 391–408; the updater functions mutate the very
same record objects, so each stage sees the previous one's fields). -/
def mapStage (f : Record → Record) (d : List (String × Record)) :
    List (String × Record) :=
  d.map (fun p => (p.1, f p.2))

/-- A fallible enrichment stage (admin levels, lineage). -/
def mapStageE (f : Record → Except String Record)
    (d : List (String × Record)) : Except String (List (String × Record)) :=
  d.mapM (fun p => do
    let r ← f p.2
    pure (p.1, r))

/-- Lines 391–408: the enrichment stages over the new-records dict, in
source order (omission, date stamp, admin levels, date check, travel
history, and lineage when a lineage file was given). -/
def gisaid_new_enriched (get_travel_history : Record → Record) (today : String)
    (validCountries : List String) (omitted_IDs : Option (List String))
    (args_lineages : Option (List (String × String)))
    (new0 : List (String × Record)) : Except String (List (String × Record)) := do
  let new1 := mapStage (fun r => update_edin_omitted_field r omitted_IDs) new0
  let new2 := mapStage (update_edin_date_stamp_field today) new1
  let new3 ← mapStageE (get_admin_levels_from_json_dict true validCountries) new2
  let new4 := mapStage check_gisaid_date new3
  let new5 := mapStage get_travel_history new4
  match args_lineages with
  | none => pure new5
  | some lineages => mapStageE (fun r => update_edin_lineage_field r lineages) new5

/-- The per-record composition of the enrichment stages, used to state
what one new record's final contents are. -/
def enrich_new_record (get_travel_history : Record → Record) (today : String)
    (validCountries : List String) (omitted_IDs : Option (List String))
    (args_lineages : Option (List (String × String))) (r : Record) :
    Except String Record := do
  let r1 := update_edin_omitted_field r omitted_IDs
  let r2 := update_edin_date_stamp_field today r1
  let r3 ← get_admin_levels_from_json_dict true validCountries r2
  let r4 := check_gisaid_date r3
  let r5 := get_travel_history r4
  match args_lineages with
  | none => pure r5
  | some lineages => update_edin_lineage_field r5 lineages

/-- Embeds gisaid_json_2_metadata (lines 341–418), returning the output
lines. -/
def gisaid_json_2_metadata (get_travel_history : Record → Record) (today : String)
    (validCountries : List String) (jsonObjs : List Record)
    (args_csv : Option (List String)) (omitted_IDs : Option (List String))
    (args_lineages : Option (List (String × String))) :
    Except String (List String) := do
  let fieldsExt ← gisaid_fields_ext args_csv
  let old ← gisaid_old args_csv fieldsExt
  let all := get_json_order_and_record_dict jsonObjs (fields_gisaid ++ fields_edin)
    fieldsExt
  let new_records_list := all.1.filter (fun x => !(old.1.contains x))
  let new0 := new_records_list.map (fun x => (x, aGetD all.2 x []))
  let newFinal ← gisaid_new_enriched get_travel_history today validCountries
    omitted_IDs args_lineages new0
  pure (write_output new_records_list newFinal old.1 old.2
    (fields_edin ++ fieldsExt ++ fields_gisaid))

/-- The output column order when the registry adds no extra columns. -/
def canonFields : List String := fields_edin ++ fields0 ++ fields_gisaid

/-- A registry header line in exactly the output column order. -/
def canonHeaderLine : String := joinSep "," canonFields

end Datafunk

/-! ## Theorems -/

namespace Datafunk

/-! ### Dictionary lemmas -/

theorem aGetD_aSet_same (d : List (String × α)) (k : String) (v v₀ : α) :
    aGetD (aSet d k v) k v₀ = v := by
  induction d with
  | nil => simp [aSet, aGetD]
  | cons p rest ih =>
    by_cases h : p.1 = k
    · simp [aSet, aGetD, h]
    · simp [aSet, aGetD, h, ih]

theorem aGetD_aSet_diff (d : List (String × α)) (k k' : String) (v : α) (v₀ : α)
    (h : ¬ k = k') : aGetD (aSet d k v) k' v₀ = aGetD d k' v₀ := by
  induction d with
  | nil => simp [aSet, aGetD, h]
  | cons p rest ih =>
    by_cases hp : p.1 = k
    · simp [aSet, aGetD, hp, h]
    · simp [aSet, aGetD, hp, ih]

theorem getF_setF_same (r : Record) (k v : String) : getF (setF r k v) k = v :=
  aGetD_aSet_same r k v ""

theorem getF_setF_diff (r : Record) (k k' v : String) (h : ¬ k = k') :
    getF (setF r k v) k' = getF r k' :=
  aGetD_aSet_diff r k k' v "" h

/-! ### C1 — country lookup failure crashes instead of flagging -/

/-- Claim C1 (status: code_bug). For every record whose derived country is
not one of the five known exceptions and is not resolved by the country
lookup, `get_admin_levels_from_json_dict` (with its default
`warnings=True`) does not append `check_country` to `edin_flag`: the
parameter `warnings` shadows the `warnings` module, so the handler's
`warnings.warn(...)` raises `AttributeError` and the whole run aborts,
contradicting the claim that processing continues with the flag appended. -/
theorem C1_check_country_crashes (validCountries : List String) (r : Record)
    (h1 : (admin_levels_raw r).1 ∉ exceptionCountries)
    (h2 : (admin_levels_raw r).1 ∉ validCountries) :
    get_admin_levels_from_json_dict true validCountries r =
      Except.error attributeErrorWarn := by
  unfold get_admin_levels_from_json_dict
  simp [h1, h2]

/-- Witness for C1: a concrete record whose country fails the lookup. -/
theorem C1_check_country_crashes_witness :
    get_admin_levels_from_json_dict true ["United Kingdom", "USA", "France"]
      [("covv_location", "Europe / Atlantis / Narnia"), ("edin_flag", "")] =
      Except.error attributeErrorWarn :=
  C1_check_country_crashes ["United Kingdom", "USA", "France"]
    [("covv_location", "Europe / Atlantis / Narnia"), ("edin_flag", "")]
    (by decide) (by decide)

/-! ### C5 — admin levels for "England / Greater London /" -/

/-- Counterexample to claim C5: for `covv_location = "England / Greater London /"`
the location split puts "Greater London" in the country slot (token 1), so
with the default `warnings=True` the pycountry check crashes, and with
warnings disabled `edin_admin_0` is "Greater London", not the claimed "UK". -/
theorem C5_counterexample :
    get_admin_levels_from_json_dict true ["United Kingdom", "USA", "France"]
      [("covv_location", "England / Greater London /")] =
      Except.error attributeErrorWarn ∧
    get_admin_levels_from_json_dict false ["United Kingdom", "USA", "France"]
      [("covv_location", "England / Greater London /")] =
      Except.ok [("covv_location", "England / Greater London /"),
                 ("edin_admin_0", "Greater London"), ("edin_admin_1", ""),
                 ("edin_admin_2", "")] ∧
    ¬ ("Greater London" = "UK") := by
  refine ⟨by decide, by decide, by decide⟩

/-- Claim C5 (status: corrected). A record with
`covv_location = "England / Greater London /"` derives country
"Greater London": with country checking on, the run aborts (AttributeError,
see C1); with checking off the admin levels are ("Greater London", "", "").
The output claimed by the spec — ("UK", "Greater London", "") — is instead
produced by `covv_location = "Europe / United Kingdom / Greater London /"`. -/
theorem C5_amended (validCountries : List String) (r r' : Record)
    (hloc : getF r "covv_location" = "England / Greater London /")
    (hval : "Greater London" ∉ validCountries)
    (hloc' : getF r' "covv_location" = "Europe / United Kingdom / Greater London /")
    (hval' : "United Kingdom" ∈ validCountries) :
    get_admin_levels_from_json_dict true validCountries r =
      Except.error attributeErrorWarn ∧
    (∃ d, get_admin_levels_from_json_dict false validCountries r = Except.ok d ∧
      getF d "edin_admin_0" = "Greater London" ∧ getF d "edin_admin_1" = "" ∧
      getF d "edin_admin_2" = "") ∧
    (∃ d, get_admin_levels_from_json_dict true validCountries r' = Except.ok d ∧
      getF d "edin_admin_0" = "UK" ∧ getF d "edin_admin_1" = "Greater London" ∧
      getF d "edin_admin_2" = "") := by
  have hraw : admin_levels_raw r = ("Greater London", "", "") := by
    unfold admin_levels_raw location_strings
    rw [hloc]
    decide
  have hraw' : admin_levels_raw r' = ("United Kingdom", "Greater London", "") := by
    unfold admin_levels_raw location_strings
    rw [hloc']
    decide
  refine ⟨?_, ?_, ?_⟩
  · unfold get_admin_levels_from_json_dict
    rw [hraw]
    simp [hval]
    decide
  · unfold get_admin_levels_from_json_dict
    rw [hraw]
    refine ⟨_, rfl, ?_, ?_, ?_⟩
    · rw [getF_setF_diff _ _ _ _ (by decide), getF_setF_diff _ _ _ _ (by decide),
        getF_setF_same]
      decide
    · rw [getF_setF_diff _ _ _ _ (by decide), getF_setF_same]
    · rw [getF_setF_same]
  · unfold get_admin_levels_from_json_dict
    rw [hraw']
    rw [if_neg (by simp [hval'])]
    refine ⟨_, rfl, ?_, ?_, ?_⟩
    · rw [getF_setF_diff _ _ _ _ (by decide), getF_setF_diff _ _ _ _ (by decide),
        getF_setF_same]
      decide
    · rw [getF_setF_diff _ _ _ _ (by decide), getF_setF_same]
    · rw [getF_setF_same]

/-- Witness for C5_amended at concrete records. -/
theorem C5_amended_witness :
    get_admin_levels_from_json_dict true ["United Kingdom"]
      [("covv_location", "England / Greater London /")] =
      Except.error attributeErrorWarn ∧
    (∃ d, get_admin_levels_from_json_dict false ["United Kingdom"]
        [("covv_location", "England / Greater London /")] = Except.ok d ∧
      getF d "edin_admin_0" = "Greater London" ∧ getF d "edin_admin_1" = "" ∧
      getF d "edin_admin_2" = "") ∧
    (∃ d, get_admin_levels_from_json_dict true ["United Kingdom"]
        [("covv_location", "Europe / United Kingdom / Greater London /")] =
        Except.ok d ∧
      getF d "edin_admin_0" = "UK" ∧ getF d "edin_admin_1" = "Greater London" ∧
      getF d "edin_admin_2" = "") :=
  C5_amended ["United Kingdom"]
    [("covv_location", "England / Greater London /")]
    [("covv_location", "Europe / United Kingdom / Greater London /")]
    (by decide) (by decide) (by decide) (by decide)

/-! ### Counting lemmas for the adm2 tally -/

theorem aGetD_bumpCount_same (d : List (String × Nat)) (k : String) :
    aGetD (bumpCount d k) k 0 = aGetD d k 0 + 1 := by
  induction d with
  | nil => simp [bumpCount, aGetD]
  | cons p rest ih =>
    by_cases h : p.1 = k
    · simp [bumpCount, aGetD, h]
    · simp [bumpCount, aGetD, h, ih]

theorem aGetD_bumpCount_diff (d : List (String × Nat)) (k k' : String) (h : ¬ k = k') :
    aGetD (bumpCount d k) k' 0 = aGetD d k' 0 := by
  induction d with
  | nil => simp [bumpCount, aGetD, h]
  | cons p rest ih =>
    by_cases hp : p.1 = k
    · simp [bumpCount, aGetD, hp, h]
    · simp [bumpCount, aGetD, hp, ih]

theorem aGetD_foldl_bumpCount (l : List String) (acc : List (String × Nat)) (k : String) :
    aGetD (l.foldl bumpCount acc) k 0 = aGetD acc k 0 + l.count k := by
  induction l generalizing acc with
  | nil => simp
  | cons c rest ih =>
    rw [List.foldl_cons, ih, List.count_cons]
    by_cases h : k = c
    · subst h
      rw [aGetD_bumpCount_same]
      simp
      omega
    · have h2 : ¬ c = k := fun hc => h hc.symm
      rw [aGetD_bumpCount_diff acc c k h2]
      simp [h]
      exact h2

theorem aHas_bumpCount (d : List (String × Nat)) (k k' : String) :
    aHas (bumpCount d k) k' = (aHas d k' || k = k') := by
  induction d with
  | nil => simp [bumpCount, aHas, eq_comm]
  | cons p rest ih =>
    by_cases hp : p.1 = k
    · by_cases hk : k = k' <;> simp [bumpCount, aHas, hp, hk, ih]
    · simp [bumpCount, aHas, hp, ih, Bool.or_assoc]

theorem aHas_foldl_bumpCount (l : List String) (acc : List (String × Nat)) (k : String) :
    aHas (l.foldl bumpCount acc) k = (aHas acc k || l.contains k) := by
  induction l generalizing acc with
  | nil => simp
  | cons c rest ih =>
    rw [List.foldl_cons, ih, aHas_bumpCount]
    by_cases h : c = k
    · simp [h]
    · have h' : ¬ k = c := fun hh => h hh.symm
      simp [h, h', Bool.or_assoc]

theorem aHas_of_mem_keys (d : List (String × Nat)) (k : String)
    (hmem : k ∈ d.map (fun p => p.1)) : aHas d k = true := by
  induction d with
  | nil => simp at hmem
  | cons p rest ih =>
    rcases List.mem_cons.mp hmem with h1 | h1
    · simp [aHas, h1]
    · simp [aHas, ih h1]

theorem keys_bumpCount (d : List (String × Nat)) (k : String) :
    (bumpCount d k).map (fun p => p.1) =
      if aHas d k then d.map (fun p => p.1) else d.map (fun p => p.1) ++ [k] := by
  induction d with
  | nil => simp [bumpCount, aHas]
  | cons p rest ih =>
    by_cases hp : p.1 = k
    · simp [bumpCount, aHas, hp]
    · by_cases hr : aHas rest k = true <;> simp [bumpCount, aHas, hp, hr, ih]

theorem keysNodup_bumpCount (d : List (String × Nat)) (k : String)
    (h : (d.map (fun p => p.1)).Nodup) : ((bumpCount d k).map (fun p => p.1)).Nodup := by
  rw [keys_bumpCount]
  by_cases hk : aHas d k = true
  · simp [hk, h]
  · have hkmem : k ∉ d.map (fun p => p.1) := fun hmem => hk (aHas_of_mem_keys d k hmem)
    simp only [hk]
    simp [List.nodup_append, h, hkmem]

theorem keysNodup_foldl_bumpCount (l : List String) (acc : List (String × Nat))
    (h : (acc.map (fun p => p.1)).Nodup) :
    (((l.foldl bumpCount acc)).map (fun p => p.1)).Nodup := by
  induction l generalizing acc with
  | nil => simpa
  | cons c rest ih => exact ih _ (keysNodup_bumpCount _ _ h)

theorem mem_keys_of_aHas (d : List (String × Nat)) (k : String)
    (h : aHas d k = true) : k ∈ d.map (fun p => p.1) := by
  induction d with
  | nil => simp [aHas] at h
  | cons p rest ih =>
    simp only [aHas, Bool.or_eq_true, decide_eq_true_eq] at h
    rcases h with h | h
    · exact List.mem_cons.mpr (Or.inl h.symm)
    · exact List.mem_cons.mpr (Or.inr (ih h))

theorem mem_filtered_iff_of_nodup (d : List (String × Nat)) (v : String)
    (hnd : (d.map (fun p => p.1)).Nodup) (hv : v ∈ d.map (fun p => p.1)) :
    (v ∈ (d.filter (fun p => p.2 < 5)).map (fun p => p.1)) ↔ aGetD d v 0 < 5 := by
  induction d with
  | nil => simp at hv
  | cons p rest ih =>
    rcases p with ⟨k, n⟩
    simp only [List.map_cons, List.nodup_cons] at hnd
    by_cases hk : k = v
    · have hrest : v ∉ rest.map (fun p => p.1) := hk ▸ hnd.1
      have hrestf : v ∉ (rest.filter (fun p => p.2 < 5)).map (fun p => p.1) := by
        intro hmem
        rcases List.mem_map.mp hmem with ⟨q, hq, hq2⟩
        exact hrest (hq2 ▸ List.mem_map_of_mem _ (List.mem_of_mem_filter hq))
      by_cases hn : n < 5
      · simp [List.filter_cons, hn, aGetD, hk]
      · simp [List.filter_cons, hn, aGetD, hk, hrestf]
    · have hne : ¬ v = k := fun hh => hk hh.symm
      have hv' : v ∈ rest.map (fun p => p.1) := by
        rcases List.mem_cons.mp hv with h1 | h1
        · exact absurd h1.symm hk
        · exact h1
      by_cases hn : n < 5
      · simp [List.filter_cons, hn, aGetD, hk, hne, ih hnd.2 hv']
      · simp [List.filter_cons, hn, aGetD, hk, ih hnd.2 hv']

/-! ### C8 — adm2 redaction threshold -/

/-- Counterexample to claim C8 as stated: with five rows whose adm2 value is
already the empty string, the anonymized column is empty although the value
occurs 5 times (not strictly fewer than 5), so "empty exactly when the
count is below 5" fails. -/
theorem C8_counterexample :
    getF ((anonymize_adm2 (List.replicate 5 [("adm2", "")])).getD 0 [])
        "anonymized_admn2" = "" ∧
    ¬ ((List.replicate 5 [("adm2", "")] : List Record).map
        (fun e => getF e "adm2")).count "" < 5 := by
  constructor
  · decide
  · decide

/-- Claim C8 (status: corrected). For every input row, the anonymized adm2
value is empty when the row's adm2 value occurs strictly fewer than 5 times
across the file and is the original value when it occurs 5 or more times;
the biconditional "empty exactly when the count is below 5" holds whenever
the original value is itself non-empty (an empty adm2 value with 5 or more
occurrences is copied through unchanged, i.e. stays empty). -/
theorem C8_amended (l : List Record) (i : Nat) (hi : i < l.length) :
    ((l.map (fun e => getF e "adm2")).count (getF (l.getD i []) "adm2") < 5 →
      getF ((anonymize_adm2 l).getD i []) "anonymized_admn2" = "") ∧
    (5 ≤ (l.map (fun e => getF e "adm2")).count (getF (l.getD i []) "adm2") →
      getF ((anonymize_adm2 l).getD i []) "anonymized_admn2" =
        getF (l.getD i []) "adm2") ∧
    (¬ getF (l.getD i []) "adm2" = "" →
      (getF ((anonymize_adm2 l).getD i []) "anonymized_admn2" = "" ↔
        (l.map (fun e => getF e "adm2")).count (getF (l.getD i []) "adm2") < 5)) := by
  have hlen : i < (anonymize_adm2 l).length := by
    simpa [anonymize_adm2] using hi
  have hentry : (anonymize_adm2 l).getD i [] =
      (if (anonymous_locations (admn2_counts l)).contains (getF (l.getD i []) "adm2")
        then setF (l.getD i []) "anonymized_admn2" ""
        else setF (l.getD i []) "anonymized_admn2" (getF (l.getD i []) "adm2")) := by
    rw [List.getD_eq_getElem _ _ hlen, List.getD_eq_getElem _ _ hi]
    simp [anonymize_adm2]
  have hcounts : admn2_counts l = (l.map (fun e => getF e "adm2")).foldl bumpCount [] := by
    rw [List.foldl_map]
    rfl
  have hval : aGetD (admn2_counts l) (getF (l.getD i []) "adm2") 0 =
      (l.map (fun e => getF e "adm2")).count (getF (l.getD i []) "adm2") := by
    rw [hcounts, aGetD_foldl_bumpCount]
    simp [aGetD]
  have hmem : (getF (l.getD i []) "adm2") ∈ l.map (fun e => getF e "adm2") := by
    rw [List.getD_eq_getElem _ _ hi]
    exact List.mem_map_of_mem _ (l.getElem_mem hi)
  have hhas : aHas (admn2_counts l) (getF (l.getD i []) "adm2") = true := by
    rw [hcounts, aHas_foldl_bumpCount]
    simp only [Bool.or_eq_true]
    exact Or.inr (List.elem_eq_true_of_mem hmem)
  have hnodup : ((admn2_counts l).map (fun p => p.1)).Nodup :=
    hcounts ▸ keysNodup_foldl_bumpCount _ _ (by simp)
  have hkeys : (getF (l.getD i []) "adm2") ∈ (admn2_counts l).map (fun p => p.1) := by
    apply mem_keys_of_aHas
    exact hhas
  have hiff := mem_filtered_iff_of_nodup (admn2_counts l) _ hnodup hkeys
  rw [hval] at hiff
  have hcT : (l.map (fun e => getF e "adm2")).count (getF (l.getD i []) "adm2") < 5 →
      (anonymous_locations (admn2_counts l)).contains (getF (l.getD i []) "adm2")
        = true := by
    intro hlt
    rw [anonymous_locations]
    exact List.elem_eq_true_of_mem (hiff.mpr hlt)
  have hcF : ¬ (l.map (fun e => getF e "adm2")).count (getF (l.getD i []) "adm2") < 5 →
      (anonymous_locations (admn2_counts l)).contains (getF (l.getD i []) "adm2")
        = false := by
    intro hge
    rw [anonymous_locations]
    simp only [List.contains]
    simp only [List.elem_eq_mem, decide_eq_false_iff_not]
    exact fun hmem => hge (hiff.mp hmem)
  refine ⟨?_, ?_, ?_⟩
  · intro hlt
    rw [hentry, hcT hlt]
    simp only [if_true]
    exact getF_setF_same _ _ _
  · intro hge
    rw [hentry, hcF (Nat.not_lt.mpr hge)]
    simp only [Bool.false_eq_true, if_false]
    exact getF_setF_same _ _ _
  · intro hne
    constructor
    · intro hempty
      by_contra hlt
      rw [hentry, hcF hlt] at hempty
      simp only [Bool.false_eq_true, if_false] at hempty
      rw [getF_setF_same] at hempty
      exact hne hempty
    · intro hlt
      rw [hentry, hcT hlt]
      simp only [if_true]
      exact getF_setF_same _ _ _

/-- Witness for C8_amended at a concrete one-row input. -/
theorem C8_amended_witness :
    ((([[("adm2", "Kent")]] : List Record).map (fun e => getF e "adm2")).count
        (getF (([[("adm2", "Kent")]] : List Record).getD 0 []) "adm2") < 5 →
      getF ((anonymize_adm2 [[("adm2", "Kent")]]).getD 0 []) "anonymized_admn2" = "") ∧
    (5 ≤ (([[("adm2", "Kent")]] : List Record).map (fun e => getF e "adm2")).count
        (getF (([[("adm2", "Kent")]] : List Record).getD 0 []) "adm2") →
      getF ((anonymize_adm2 [[("adm2", "Kent")]]).getD 0 []) "anonymized_admn2" =
        getF (([[("adm2", "Kent")]] : List Record).getD 0 []) "adm2") ∧
    (¬ getF (([[("adm2", "Kent")]] : List Record).getD 0 []) "adm2" = "" →
      (getF ((anonymize_adm2 [[("adm2", "Kent")]]).getD 0 []) "anonymized_admn2" = "" ↔
        (([[("adm2", "Kent")]] : List Record).map (fun e => getF e "adm2")).count
          (getF (([[("adm2", "Kent")]] : List Record).getD 0 []) "adm2") < 5)) :=
  C8_amended [[("adm2", "Kent")]] 0 (by decide)

/-! ### C2 — fresh lineage naming can duplicate a winning label -/

/-- Claim C2 (status: code_bug). With winning labels UK2 and UK3 and two
clusters needing fresh names, `name_new_lineages` builds full_list = [1, 2]
(the integers 1..len(used_names)) and usable_names = [1]: the first unnamed
cluster C gets UK1, but the second unnamed cluster D exhausts the pool and
receives len(full_list) + 1 = 3, i.e. UK3 — which is already cluster B's
label, so the final labels are not unique (D should get UK4, the smallest
unused integer). The integrity assertions of `curate_lineages` pass anyway,
because `test_counter` only counts the pre-existing winning labels, so the
run completes and writes the duplicate. The input dict is reachable: it is
exactly the output of `rename_lineages` and `deal_with_issues` on the
tallies of a traits file with clusters A = {UK2}, B = {UK3}, C = {""},
D = {""} (shown in the first two conjuncts). -/
theorem C2_duplicate_fresh_label :
    rename_lineages
        [("A", [("UK2", 1)]), ("B", [("UK3", 1)]), ("C", [("", 1)]), ("D", [("", 1)])]
        [("UK2", [("A", 1)]), ("UK3", [("B", 1)]), ("", [("C", 1), ("D", 1)])] =
      ([("A", ["UK2"]), ("B", ["UK3"]), ("C", [""]), ("D", [""])], []) ∧
    deal_with_issues [("A", ["UK2"]), ("B", ["UK3"]), ("C", [""]), ("D", [""])] []
        [("UK2", [("A", 1)]), ("UK3", [("B", 1)]), ("", [("C", 1), ("D", 1)])]
        [("A", [("UK2", 1)]), ("B", [("UK3", 1)]), ("C", [("", 1)]), ("D", [("", 1)])] =
      some [("A", ["UK2"]), ("B", ["UK3"]), ("C", [""]), ("D", [""])] ∧
    name_new_lineages [("A", ["UK2"]), ("B", ["UK3"]), ("C", [""]), ("D", [""])] =
      some ([("A", "UK2"), ("B", "UK3"), ("C", "UK1"), ("D", "UK3")],
            [(2, 1), (3, 1)]) ∧
    curate_asserts [(2, 1), (3, 1)]
        [("A", ["UK2"]), ("B", ["UK3"]), ("C", [""]), ("D", [""])] = true ∧
    aGetD [("A", "UK2"), ("B", "UK3"), ("C", "UK1"), ("D", "UK3")] "B" "" =
      aGetD [("A", "UK2"), ("B", "UK3"), ("C", "UK1"), ("D", "UK3")] "D" "" ∧
    ¬ ("B" = "D") ∧ ¬ ("UK3" = "UK4") := by
  refine ⟨by decide, by decide, by decide, by decide, by decide, by decide, by decide⟩

/-! ### C4 — conflict-sweep reassignment order -/

/-- Counterexample to claim C4 as stated. Clusters A = {UK1:2, UK3:1, UK4:2},
B = {UK2:4, UK1:3}, C = {UK2:5}: the first pass gives both A and B the
label UK1 (and C UK2); in the sweep B (count 3) keeps UK1 and A is
reassigned. A's remaining candidates have counts UK3 = 1 and UK4 = 2, so
scanning "in descending frequency order" as claimed would give UK4 — but
the code iterates the proposal Counter in first-encounter (insertion)
order and assigns UK3. -/
theorem C4_counterexample :
    rename_lineages
        [("A", [("UK1", 2), ("UK3", 1), ("UK4", 2)]), ("B", [("UK2", 4), ("UK1", 3)]),
         ("C", [("UK2", 5)])]
        [("UK1", [("A", 2), ("B", 3)]), ("UK3", [("A", 1)]), ("UK4", [("A", 2)]),
         ("UK2", [("B", 4), ("C", 5)])] =
      ([("A", ["UK1"]), ("B", ["UK1"]), ("C", ["UK2"])], ["UK1", "UK1", "UK2"]) ∧
    deal_with_issues [("A", ["UK1"]), ("B", ["UK1"]), ("C", ["UK2"])]
        ["UK1", "UK1", "UK2"]
        [("UK1", [("A", 2), ("B", 3)]), ("UK3", [("A", 1)]), ("UK4", [("A", 2)]),
         ("UK2", [("B", 4), ("C", 5)])]
        [("A", [("UK1", 2), ("UK3", 1), ("UK4", 2)]), ("B", [("UK2", 4), ("UK1", 3)]),
         ("C", [("UK2", 5)])] =
      some [("A", ["UK3"]), ("B", ["UK1"]), ("C", ["UK2"])] ∧
    aGetD [("A", ["UK3"]), ("B", ["UK1"]), ("C", ["UK2"])] "A" [] = ["UK3"] ∧
    ¬ (["UK3"] = ["UK4"]) ∧
    aGetD [("UK1", 2), ("UK3", 1), ("UK4", 2)] "UK4" 0 = 2 ∧
    aGetD [("UK1", 2), ("UK3", 1), ("UK4", 2)] "UK3" 0 = 1 := by
  refine ⟨by decide, by decide, by decide, by decide, by decide, by decide⟩

theorem aGetD_eq_of_mem_nodup {α : Type} (d : List (String × α)) (k : String)
    (v : α) (v₀ : α) (hnd : (d.map (fun p => p.1)).Nodup) (hmem : (k, v) ∈ d) :
    aGetD d k v₀ = v := by
  induction d with
  | nil => simp at hmem
  | cons p rest ih =>
    simp only [List.map_cons, List.nodup_cons] at hnd
    rcases List.mem_cons.mp hmem with h1 | h1
    · rw [← h1]
      simp [aGetD]
    · have hne : ¬ p.1 = k := by
        intro he
        exact hnd.1 (he ▸ List.mem_map_of_mem (fun q => q.1) h1)
      simp [aGetD, hne, ih hnd.2 h1]

theorem firstUnclaimed_cons_pos (ns : List String) (ov : String) (l : List String)
    (hq : ¬ ov = "" ∧ ¬ (ns.contains ov = true)) :
    firstUnclaimedInsertionOrder (ov :: l) ns = ov := by
  simp only [firstUnclaimedInsertionOrder, List.filter_cons, decide_eq_true hq]
  simp

theorem firstUnclaimed_cons_neg (ns : List String) (ov : String) (l : List String)
    (hq : ¬ (¬ ov = "" ∧ ¬ (ns.contains ov = true))) :
    firstUnclaimedInsertionOrder (ov :: l) ns = firstUnclaimedInsertionOrder l ns := by
  simp only [firstUnclaimedInsertionOrder, List.filter_cons, decide_eq_false hq]
  simp

theorem firstOtherOption_eq_spec (ns : List String) (opts : List (String × Nat))
    (h : ¬ opts = []) :
    firstOtherOption ns opts =
      some (firstUnclaimedInsertionOrder (opts.map (fun p => p.1)) ns) := by
  induction opts with
  | nil => exact absurd rfl h
  | cons o rest ih =>
    rcases o with ⟨ov, oc⟩
    cases rest with
    | nil =>
      by_cases hq : ¬ ov = "" ∧ ¬ (ns.contains ov = true)
      · rw [List.map_cons, List.map_nil, firstUnclaimed_cons_pos ns ov [] hq]
        simp only [firstOtherOption, if_pos hq]
      · rw [List.map_cons, List.map_nil, firstUnclaimed_cons_neg ns ov [] hq]
        simp only [firstOtherOption, if_neg hq]
        simp [firstUnclaimedInsertionOrder]
    | cons q rest2 =>
      by_cases hq : ¬ ov = "" ∧ ¬ (ns.contains ov = true)
      · rw [List.map_cons, firstUnclaimed_cons_pos ns ov _ hq]
        simp only [firstOtherOption, if_pos hq]
      · rw [List.map_cons, firstUnclaimed_cons_neg ns ov _ hq]
        rw [← ih (by simp)]
        simp only [firstOtherOption, if_neg hq]

theorem reassign_fold (ns : List String) (anc : List (String × List (String × Nat)))
    (winner : String) (contenders : List String) (d2 : List (String × List String))
    (hanc : ∀ c ∈ contenders, ¬ c = winner → ¬ aGetD anc c [] = []) :
    ∃ d3, contenders.foldl (reassign_contender ns anc winner) (some d2) = some d3 ∧
      (∀ k, k ∈ contenders → ¬ k = winner →
        aGetD d3 k [] =
          [firstUnclaimedInsertionOrder ((aGetD anc k []).map (fun p => p.1)) ns]) ∧
      (∀ k, (k ∉ contenders ∨ k = winner) → aGetD d3 k [] = aGetD d2 k []) := by
  induction contenders generalizing d2 with
  | nil =>
    refine ⟨d2, rfl, ?_, fun k _ => rfl⟩
    intro k hk
    simp at hk
  | cons c rest ih =>
    by_cases hcw : c = winner
    · rw [List.foldl_cons]
      have hstep : reassign_contender ns anc winner (some d2) c = some d2 := by
        simp [reassign_contender, hcw]
      rw [hstep]
      obtain ⟨d3, hfold, hre, hun⟩ :=
        ih d2 (fun c2 hc2 => hanc c2 (List.mem_cons_of_mem _ hc2))
      refine ⟨d3, hfold, ?_, ?_⟩
      · intro k hk hkw
        rcases List.mem_cons.mp hk with h1 | h1
        · exact absurd (h1.trans hcw) hkw
        · exact hre k h1 hkw
      · intro k hk
        apply hun
        rcases hk with hk | hk
        · exact Or.inl (fun hmem => hk (List.mem_cons_of_mem _ hmem))
        · exact Or.inr hk
    · rw [List.foldl_cons]
      have hne : ¬ aGetD anc c [] = [] := hanc c (List.mem_cons_self _ _) hcw
      have hstep : reassign_contender ns anc winner (some d2) c =
          some (aSet d2 c
            [firstUnclaimedInsertionOrder ((aGetD anc c []).map (fun p => p.1)) ns]) := by
        rw [reassign_contender]
        simp only [hcw, if_false]
        rw [firstOtherOption_eq_spec ns _ hne]
      rw [hstep]
      obtain ⟨d3, hfold, hre, hun⟩ :=
        ih _ (fun c2 hc2 => hanc c2 (List.mem_cons_of_mem _ hc2))
      refine ⟨d3, hfold, ?_, ?_⟩
      · intro k hk hkw
        rcases List.mem_cons.mp hk with h1 | h1
        · subst h1
          by_cases hkr : k ∈ rest
          · exact hre k hkr hkw
          · rw [hun k (Or.inl hkr), aGetD_aSet_same]
        · exact hre k h1 hkw
      · intro k hk
        rcases hk with hk | hk
        · have hkr : k ∉ rest := fun hm => hk (List.mem_cons_of_mem _ hm)
          have hkc : ¬ c = k := fun he => hk (he ▸ List.mem_cons_self _ _)
          rw [hun k (Or.inl hkr), aGetD_aSet_diff _ _ _ _ _ hkc]
        · have hck : ¬ c = k := fun he => hcw (he.trans hk)
          rw [hun k (Or.inr hk), aGetD_aSet_diff _ _ _ _ _ hck]

theorem process_fold (ns : List String) (anc : List (String × List (String × Nat)))
    (pairs : List (String × List (String × Nat))) (d0 : List (String × List String))
    (hanc : ∀ pp ∈ pairs, ∀ c ∈ pp.2.map (fun t => t.1), ¬ c = maxByCount pp.2 →
      ¬ aGetD anc c [] = []) :
    ∃ d', pairs.foldl (process_problem ns anc) (some d0) = some d' ∧
      (∀ k, (∃ pp ∈ pairs, k ∈ pp.2.map (fun t => t.1) ∧ ¬ k = maxByCount pp.2) →
        aGetD d' k [] =
          [firstUnclaimedInsertionOrder ((aGetD anc k []).map (fun p => p.1)) ns]) ∧
      (∀ k, ¬ (∃ pp ∈ pairs, k ∈ pp.2.map (fun t => t.1) ∧ ¬ k = maxByCount pp.2) →
        aGetD d' k [] = aGetD d0 k []) := by
  induction pairs generalizing d0 with
  | nil =>
    refine ⟨d0, rfl, ?_, fun k _ => rfl⟩
    intro k hk
    simp at hk
  | cons pp rest ih =>
    obtain ⟨d1, hfold1, hre1, hun1⟩ :=
      reassign_fold ns anc (maxByCount pp.2) (pp.2.map (fun t => t.1)) d0
        (fun c hc hcw => hanc pp (List.mem_cons_self _ _) c hc hcw)
    have hstep : process_problem ns anc (some d0) pp = some d1 := by
      rw [process_problem]
      exact hfold1
    obtain ⟨d', hfold, hre, hun⟩ :=
      ih d1 (fun pp2 h2 => hanc pp2 (List.mem_cons_of_mem _ h2))
    refine ⟨d', ?_, ?_, ?_⟩
    · rw [List.foldl_cons, hstep, hfold]
    · intro k hk
      rcases hk with ⟨pp2, hpp2mem, hkmem, hkw⟩
      rcases List.mem_cons.mp hpp2mem with h1 | h1
      · by_cases hk2 : ∃ pp3 ∈ rest, k ∈ pp3.2.map (fun t => t.1) ∧
            ¬ k = maxByCount pp3.2
        · exact hre k hk2
        · rw [hun k hk2]
          exact hre1 k (h1 ▸ hkmem) (h1 ▸ hkw)
      · exact hre k ⟨pp2, h1, hkmem, hkw⟩
    · intro k hk
      have hk1 : ¬ (k ∈ pp.2.map (fun t => t.1) ∧ ¬ k = maxByCount pp.2) :=
        fun hc => hk ⟨pp, List.mem_cons_self _ _, hc.1, hc.2⟩
      have hk2 : ¬ ∃ pp3 ∈ rest, k ∈ pp3.2.map (fun t => t.1) ∧
          ¬ k = maxByCount pp3.2 := by
        rintro ⟨pp3, h3, hc1, hc2⟩
        exact hk ⟨pp3, List.mem_cons_of_mem _ h3, hc1, hc2⟩
      rw [hun k hk2]
      apply hun1
      by_cases hkm : k ∈ pp.2.map (fun t => t.1)
      · right
        by_contra hw
        exact hk1 ⟨hkm, hw⟩
      · exact Or.inl hkm

theorem contender_key_mem (d : List (String × List String))
    (lac : List (String × List (String × Nat))) (lin : String) (c : String)
    (h : c ∈ (contender_tuples d lac lin).map (fun t => t.1)) :
    ∃ v, (c, v) ∈ d ∧ v.headD "" = lin := by
  rcases List.mem_map.mp h with ⟨t, ht, htc⟩
  rcases List.mem_map.mp ht with ⟨p, hp, hpt⟩
  have hpf := List.mem_filter.mp hp
  have hp1 : p.1 = c := by
    have : (p.1, aGetD (aGetD lac lin []) p.1 0).1 = t.1 := by rw [hpt]
    simpa using this.trans htc
  refine ⟨p.2, ?_, by simpa using hpf.2⟩
  rw [← hp1]
  exact hpf.1

/-- Claim C4 (status: corrected). In the conflict sweep, for every cluster
whose first-pass label is a problem label (a non-empty label won more than
once), the contender with the highest recorded count for that label —
earliest in dict order on ties — keeps its assignment, and every other
contender is reassigned to the first proposal of its own tally, scanned in
the order proposals were first encountered (Counter insertion order, not
descending frequency), that is non-empty and not in the static first-pass
`new_names` list (which is not updated as the sweep reassigns other
contenders), or to the empty string if none qualifies; every cluster whose
label is not a problem label keeps its assignment. -/
theorem C4_amended (d : List (String × List String)) (ns : List String)
    (lac anc : List (String × List (String × Nat)))
    (hkeys : (d.map (fun p => p.1)).Nodup)
    (hanc : ∀ p ∈ d, ¬ aGetD anc p.1 [] = []) :
    ∃ d', deal_with_issues d ns lac anc = some d' ∧
      ∀ p ∈ d,
        ((p.2.headD "" ∈ problem_lins ns ∧
            ¬ p.1 = maxByCount (contender_tuples d lac (p.2.headD ""))) →
          aGetD d' p.1 [] =
            [firstUnclaimedInsertionOrder ((aGetD anc p.1 []).map (fun q => q.1)) ns]) ∧
        ((¬ p.2.headD "" ∈ problem_lins ns ∨
            p.1 = maxByCount (contender_tuples d lac (p.2.headD ""))) →
          aGetD d' p.1 [] = p.2) := by
  obtain ⟨d', hfold, hre, hun⟩ := process_fold ns anc
    ((problem_lins ns).map (fun lin => (lin, contender_tuples d lac lin))) d
    (by
      intro pp hpp c hc hcw
      rcases List.mem_map.mp hpp with ⟨lin, _, hppe⟩
      rcases contender_key_mem d lac lin c (by rw [← hppe] at hc; simpa using hc)
        with ⟨v, hvmem, _⟩
      exact hanc (c, v) hvmem)
  refine ⟨d', by rw [deal_with_issues]; exact hfold, ?_⟩
  rintro ⟨k, v⟩ hp
  have hkv : aGetD d k [] = v := aGetD_eq_of_mem_nodup d k v [] hkeys hp
  constructor
  · rintro ⟨hlin, hwin⟩
    apply hre
    refine ⟨(v.headD "", contender_tuples d lac (v.headD "")),
      List.mem_map_of_mem _ hlin, ?_, hwin⟩
    apply List.mem_map.mpr
    refine ⟨(k, aGetD (aGetD lac (v.headD "") []) k 0), ?_, rfl⟩
    have : ((k, v) : String × List String).1 = k := rfl
    apply List.mem_map.mpr
    refine ⟨(k, v), List.mem_filter.mpr ⟨hp, by simp⟩, rfl⟩
  · intro hcond
    have hkeep : aGetD d' k [] = aGetD d k [] := by
      apply hun
      rintro ⟨pp, hppmem, hkmem, hkw⟩
      rcases List.mem_map.mp hppmem with ⟨lin, hlinmem, hppe⟩
      rcases contender_key_mem d lac lin k (by rw [← hppe] at hkmem; simpa using hkmem)
        with ⟨v2, hv2mem, hv2head⟩
      have hv2 : v2 = v := by
        have h1 := aGetD_eq_of_mem_nodup d k v2 [] hkeys hv2mem
        rw [hkv] at h1
        exact h1.symm
      rw [hv2] at hv2head
      rcases hcond with hcond | hcond
      · exact hcond (hv2head ▸ hlinmem)
      · apply hkw
        rw [← hppe]
        show k = maxByCount (contender_tuples d lac lin)
        rw [← hv2head]
        exact hcond
    rw [hkeep, hkv]

/-- Witness for C4_amended at the counterexample input state. -/
theorem C4_amended_witness :
    ∃ d', deal_with_issues [("A", ["UK1"]), ("B", ["UK1"]), ("C", ["UK2"])]
        ["UK1", "UK1", "UK2"]
        [("UK1", [("A", 2), ("B", 3)]), ("UK3", [("A", 1)]), ("UK4", [("A", 2)]),
         ("UK2", [("B", 4), ("C", 5)])]
        [("A", [("UK1", 2), ("UK3", 1), ("UK4", 2)]), ("B", [("UK2", 4), ("UK1", 3)]),
         ("C", [("UK2", 5)])] = some d' ∧
      ∀ p ∈ ([("A", ["UK1"]), ("B", ["UK1"]), ("C", ["UK2"])] :
          List (String × List String)),
        ((p.2.headD "" ∈ problem_lins ["UK1", "UK1", "UK2"] ∧
            ¬ p.1 = maxByCount (contender_tuples
              [("A", ["UK1"]), ("B", ["UK1"]), ("C", ["UK2"])]
              [("UK1", [("A", 2), ("B", 3)]), ("UK3", [("A", 1)]), ("UK4", [("A", 2)]),
               ("UK2", [("B", 4), ("C", 5)])] (p.2.headD ""))) →
          aGetD d' p.1 [] =
            [firstUnclaimedInsertionOrder
              ((aGetD [("A", [("UK1", 2), ("UK3", 1), ("UK4", 2)]),
                       ("B", [("UK2", 4), ("UK1", 3)]), ("C", [("UK2", 5)])] p.1 []).map
                (fun q => q.1)) ["UK1", "UK1", "UK2"]]) ∧
        ((¬ p.2.headD "" ∈ problem_lins ["UK1", "UK1", "UK2"] ∨
            p.1 = maxByCount (contender_tuples
              [("A", ["UK1"]), ("B", ["UK1"]), ("C", ["UK2"])]
              [("UK1", [("A", 2), ("B", 3)]), ("UK3", [("A", 1)]), ("UK4", [("A", 2)]),
               ("UK2", [("B", 4), ("C", 5)])] (p.2.headD ""))) →
          aGetD d' p.1 [] = p.2) :=
  C4_amended [("A", ["UK1"]), ("B", ["UK1"]), ("C", ["UK2"])] ["UK1", "UK1", "UK2"]
    [("UK1", [("A", 2), ("B", 3)]), ("UK3", [("A", 1)]), ("UK4", [("A", 2)]),
     ("UK2", [("B", 4), ("C", 5)])]
    [("A", [("UK1", 2), ("UK3", 1), ("UK4", 2)]), ("B", [("UK2", 4), ("UK1", 3)]),
     ("C", [("UK2", 5)])]
    (by decide) (by decide)

/-! ### Normalization lemmas for swap_in_gaps_Ns -/

theorem isUpperAZ_ne_star {c : Char} (h : isUpperAZ c = true) : ¬ c = '*' := by
  intro he
  rw [he] at h
  exact absurd h (by decide)

theorem takeWhile_star_replicate_append (m : Nat) (b : Char) (t : List Char)
    (hb : ¬ b = '*') :
    (List.replicate m '*' ++ b :: t).takeWhile (fun c => c = '*') =
      List.replicate m '*' := by
  induction m with
  | zero => simp [List.takeWhile_cons, hb]
  | succ n ih => simp [List.replicate_succ, List.takeWhile_cons, ih]

theorem dropWhile_star_replicate_append (m : Nat) (b : Char) (t : List Char)
    (hb : ¬ b = '*') :
    (List.replicate m '*' ++ b :: t).dropWhile (fun c => c = '*') = b :: t := by
  induction m with
  | zero => simp [List.dropWhile_cons, hb]
  | succ n ih => simp [List.replicate_succ, List.dropWhile_cons, ih]

theorem takeWhile_star_replicate (m : Nat) :
    (List.replicate m '*').takeWhile (fun c => c = '*') = List.replicate m '*' := by
  induction m with
  | zero => rfl
  | succ n ih => simp [List.replicate_succ, List.takeWhile_cons, ih]

theorem dropWhile_star_replicate (m : Nat) :
    (List.replicate m '*').dropWhile (fun c => c = '*') = [] := by
  induction m with
  | zero => rfl
  | succ n ih => simp [List.replicate_succ, List.dropWhile_cons, ih]

theorem findInternal_fuel_starFree (fuel : Nat) (s : List Char) (hs : starFree s) :
    findInternal_fuel fuel s = [] := by
  induction fuel generalizing s with
  | zero => rfl
  | succ n ih =>
    cases s with
    | nil => rfl
    | cons a rest =>
      have hrest : starFree rest := fun c hc => hs c (List.mem_cons_of_mem _ hc)
      simp only [findInternal_fuel]
      by_cases ha : isUpperAZ a = true
      · rw [if_pos ha]
        have htw : rest.takeWhile (fun c => c = '*') = [] := by
          cases rest with
          | nil => rfl
          | cons c t => simp [List.takeWhile_cons, hs c (by simp)]
        simp only [htw, List.isEmpty_nil, if_true]
        exact ih rest hrest
      · rw [if_neg ha]
        exact ih rest hrest

theorem findInternal_fuel_cons_skip (n : Nat) (c : Char) (rest : List Char)
    (hr : ∀ h, rest.head? = some h → ¬ h = '*') :
    findInternal_fuel (n + 1) (c :: rest) = findInternal_fuel n rest := by
  simp only [findInternal_fuel]
  by_cases hc : isUpperAZ c = true
  · rw [if_pos hc]
    have htw : rest.takeWhile (fun c => c = '*') = [] := by
      cases rest with
      | nil => rfl
      | cons h t => simp [List.takeWhile_cons, hr h rfl]
    simp only [htw, List.isEmpty_nil, if_true]
  · rw [if_neg hc]

theorem findInternal_main (a b : Char) (qI : List Char) (m : Nat) (hm : 1 ≤ m)
    (ha : isUpperAZ a = true) (hb : isUpperAZ b = true) (hq : starFree (b :: qI)) :
    ∀ (pI : List Char) (fuel : Nat),
      (pI ++ [a] ++ List.replicate m '*' ++ b :: qI).length ≤ fuel →
      starFree (pI ++ [a]) →
      findInternal_fuel fuel (pI ++ [a] ++ List.replicate m '*' ++ b :: qI) =
        [a :: List.replicate m '*' ++ [b]] := by
  intro pI
  induction pI with
  | nil =>
    intro fuel hfuel hp
    cases fuel with
    | zero => simp at hfuel
    | succ n =>
      show findInternal_fuel (n + 1) (a :: (List.replicate m '*' ++ b :: qI)) = _
      simp only [findInternal_fuel]
      rw [if_pos ha,
        takeWhile_star_replicate_append m b qI (isUpperAZ_ne_star hb),
        dropWhile_star_replicate_append m b qI (isUpperAZ_ne_star hb)]
      have hne : (List.replicate m '*').isEmpty = false := by
        cases m with
        | zero => exact absurd hm (by simp)
        | succ k => simp [List.replicate_succ]
      simp only [hne, Bool.false_eq_true, if_false, if_pos hb]
      rw [findInternal_fuel_starFree n qI
        (fun c hc => hq c (List.mem_cons_of_mem _ hc))]
  | cons c pI' ih =>
    intro fuel hfuel hp
    cases fuel with
    | zero => simp at hfuel
    | succ n =>
      show findInternal_fuel (n + 1)
        (c :: (pI' ++ [a] ++ List.replicate m '*' ++ b :: qI)) = _
      rw [findInternal_fuel_cons_skip]
      · exact ih n (by simp at hfuel ⊢; omega)
          (fun x hx => hp x (List.mem_cons_of_mem _ hx))
      · intro h hh
        cases pI' with
        | nil =>
          simp only [List.nil_append, List.singleton_append, List.cons_append,
            List.head?_cons, Option.some.injEq] at hh
          rw [← hh]
          exact isUpperAZ_ne_star ha
        | cons c2 t =>
          simp only [List.cons_append, List.head?_cons, Option.some.injEq] at hh
          rw [← hh]
          exact hp c2 (by simp)

theorem findInternal_leading (b : Char) (qI : List Char) (m : Nat)
    (hq : starFree (b :: qI)) :
    ∀ (fuel : Nat), (List.replicate m '*' ++ b :: qI).length ≤ fuel →
      findInternal_fuel fuel (List.replicate m '*' ++ b :: qI) = [] := by
  induction m with
  | zero =>
    intro fuel hfuel
    exact findInternal_fuel_starFree fuel _ (by simpa using hq)
  | succ k ih =>
    intro fuel hfuel
    cases fuel with
    | zero => simp at hfuel
    | succ n =>
      rw [List.replicate_succ, List.cons_append]
      simp only [findInternal_fuel]
      rw [if_neg (by decide : ¬ isUpperAZ '*' = true)]
      exact ih n (by simp at hfuel ⊢; omega)

theorem findInternal_trailing (a : Char) (m : Nat) (ha : isUpperAZ a = true) :
    ∀ (pI : List Char) (fuel : Nat),
      (pI ++ [a] ++ List.replicate m '*').length ≤ fuel →
      starFree (pI ++ [a]) →
      findInternal_fuel fuel (pI ++ [a] ++ List.replicate m '*') = [] := by
  intro pI
  induction pI with
  | nil =>
    intro fuel hfuel hp
    cases fuel with
    | zero => simp at hfuel
    | succ n =>
      show findInternal_fuel (n + 1) (a :: List.replicate m '*') = []
      simp only [findInternal_fuel]
      rw [if_pos ha, takeWhile_star_replicate m, dropWhile_star_replicate m]
      cases m with
      | zero =>
        simp only [List.replicate, List.isEmpty_nil, if_true]
        exact findInternal_fuel_starFree n [] (fun c hc => by simp at hc)
      | succ k => simp [List.replicate_succ]
  | cons c pI' ih =>
    intro fuel hfuel hp
    cases fuel with
    | zero => simp at hfuel
    | succ n =>
      show findInternal_fuel (n + 1)
        (c :: (pI' ++ [a] ++ List.replicate m '*')) = []
      rw [findInternal_fuel_cons_skip]
      · exact ih n (by simp at hfuel ⊢; omega)
          (fun x hx => hp x (List.mem_cons_of_mem _ hx))
      · intro h hh
        cases pI' with
        | nil =>
          simp only [List.nil_append, List.singleton_append, List.cons_append,
            List.head?_cons, Option.some.injEq] at hh
          rw [← hh]
          exact isUpperAZ_ne_star ha
        | cons c2 t =>
          simp only [List.cons_append, List.head?_cons, Option.some.injEq] at hh
          rw [← hh]
          exact hp c2 (by simp)

theorem matchAt_append (pat rest : List Char) : matchAt pat (pat ++ rest) = some rest := by
  induction pat with
  | nil => rfl
  | cons p ps ih => simp [matchAt, ih]

theorem replaceSub_fuel_nil (pat rep : List Char) (fuel : Nat) :
    replaceSub_fuel pat rep fuel [] = [] := by
  cases fuel <;> rfl

theorem replaceSub_fuel_starFree_fst (xs rep : List Char) (fuel : Nat)
    (s : List Char) (hs : starFree s) :
    replaceSub_fuel ('*' :: xs) rep fuel s = s := by
  induction fuel generalizing s with
  | zero => rfl
  | succ n ih =>
    cases s with
    | nil => rfl
    | cons c cs =>
      simp only [replaceSub_fuel]
      have hmat : matchAt ('*' :: xs) (c :: cs) = none := by
        have : ¬ ('*' : Char) = c := fun he => hs c (by simp) he.symm
        simp [matchAt, this]
      rw [hmat, ih cs (fun x hx => hs x (List.mem_cons_of_mem _ hx))]

theorem replaceSub_fuel_starFree_snd (a : Char) (xs rep : List Char) (fuel : Nat)
    (s : List Char) (hs : starFree s) :
    replaceSub_fuel (a :: '*' :: xs) rep fuel s = s := by
  induction fuel generalizing s with
  | zero => rfl
  | succ n ih =>
    cases s with
    | nil => rfl
    | cons c cs =>
      simp only [replaceSub_fuel]
      have hmat : matchAt (a :: '*' :: xs) (c :: cs) = none := by
        by_cases hc : a = c
        · cases cs with
          | nil => simp [matchAt, hc]
          | cons c2 t =>
            have : ¬ ('*' : Char) = c2 :=
              fun he => hs c2 (by simp) he.symm
            simp [matchAt, hc, this]
        · simp [matchAt, hc]
      rw [hmat, ih cs (fun x hx => hs x (List.mem_cons_of_mem _ hx))]

theorem replaceSub_internal (a b : Char) (m : Nat) (hm : 1 ≤ m) (rep : List Char)
    (qI : List Char) (hq : starFree qI) :
    ∀ (pI : List Char) (fuel : Nat),
      (pI ++ [a] ++ List.replicate m '*' ++ [b] ++ qI).length ≤ fuel →
      starFree (pI ++ [a]) →
      replaceSub_fuel (a :: List.replicate m '*' ++ [b]) rep fuel
        (pI ++ [a] ++ List.replicate m '*' ++ [b] ++ qI) = pI ++ rep ++ qI := by
  intro pI
  induction pI with
  | nil =>
    intro fuel hfuel hp
    cases fuel with
    | zero => simp at hfuel
    | succ n =>
      show replaceSub_fuel _ _ (n + 1)
        (a :: (List.replicate m '*' ++ [b] ++ qI)) = _
      simp only [replaceSub_fuel]
      have hmat : matchAt (a :: List.replicate m '*' ++ [b])
          (a :: (List.replicate m '*' ++ [b] ++ qI)) = some qI := by
        have := matchAt_append (a :: List.replicate m '*' ++ [b]) qI
        simpa using this
      rw [hmat]
      obtain ⟨k, hk⟩ : ∃ k, m = k + 1 := ⟨m - 1, by omega⟩
      subst hk
      rw [show (a :: List.replicate (k + 1) '*' ++ [b]) =
        a :: '*' :: (List.replicate k '*' ++ [b]) from by simp [List.replicate_succ]]
      show rep ++ replaceSub_fuel (a :: '*' :: (List.replicate k '*' ++ [b])) rep n qI =
        [] ++ rep ++ qI
      rw [replaceSub_fuel_starFree_snd a _ rep n qI hq]
      simp
  | cons c pI' ih =>
    intro fuel hfuel hp
    cases fuel with
    | zero => simp at hfuel
    | succ n =>
      show replaceSub_fuel _ _ (n + 1)
        (c :: (pI' ++ [a] ++ List.replicate m '*' ++ [b] ++ qI)) = _
      simp only [replaceSub_fuel]
      have hmat : matchAt (a :: List.replicate m '*' ++ [b])
          (c :: (pI' ++ [a] ++ List.replicate m '*' ++ [b] ++ qI)) = none := by
        by_cases hc : a = c
        · obtain ⟨k, hk⟩ : ∃ k, m = k + 1 := ⟨m - 1, by omega⟩
          subst hk
          have hhd : ∀ h, (pI' ++ [a] ++ List.replicate (k + 1) '*' ++ [b] ++ qI).head? =
              some h → ¬ h = '*' := by
            intro h hh
            cases pI' with
            | nil =>
              simp only [List.nil_append, List.singleton_append, List.cons_append,
                List.head?_cons, Option.some.injEq] at hh
              rw [← hh]
              exact hp a (by simp)
            | cons c2 t =>
              simp only [List.cons_append, List.head?_cons, Option.some.injEq] at hh
              rw [← hh]
              exact hp c2 (by simp)
          cases hrest : (pI' ++ [a] ++ List.replicate (k + 1) '*' ++ [b] ++ qI) with
          | nil => simp at hrest
          | cons h t =>
            have hhne : ¬ ('*' : Char) = h :=
              fun he => hhd h (by rw [hrest]; rfl) he.symm
            simp [matchAt, hc, List.replicate_succ, hrest, hhne]
        · simp [matchAt, hc]
      rw [hmat]
      show c :: replaceSub_fuel (a :: List.replicate m '*' ++ [b]) rep n
          (pI' ++ [a] ++ List.replicate m '*' ++ [b] ++ qI) = (c :: pI') ++ rep ++ qI
      rw [ih n (by simp at hfuel ⊢; omega)
        (fun x hx => hp x (List.mem_cons_of_mem _ hx))]
      simp

theorem replaceSub_leading (b : Char) (m : Nat) (hm : 1 ≤ m) (rep : List Char)
    (qI : List Char) (hq : starFree qI) (fuel : Nat)
    (hfuel : (List.replicate m '*' ++ [b] ++ qI).length ≤ fuel) :
    replaceSub_fuel (List.replicate m '*' ++ [b]) rep fuel
      (List.replicate m '*' ++ [b] ++ qI) = rep ++ qI := by
  obtain ⟨k, hk⟩ : ∃ k, m = k + 1 := ⟨m - 1, by omega⟩
  subst hk
  cases fuel with
  | zero => simp at hfuel
  | succ n =>
    rw [show (List.replicate (k + 1) '*' ++ [b] ++ qI) =
      '*' :: (List.replicate k '*' ++ [b] ++ qI) from by simp [List.replicate_succ]]
    simp only [replaceSub_fuel]
    have hfst : (List.replicate (k + 1) '*' ++ [b]) =
        '*' :: (List.replicate k '*' ++ [b]) := by
      simp [List.replicate_succ]
    have hmat : matchAt ('*' :: (List.replicate k '*' ++ [b]))
        ('*' :: (List.replicate k '*' ++ [b] ++ qI)) = some qI := by
      have := matchAt_append ('*' :: (List.replicate k '*' ++ [b])) qI
      simpa using this
    rw [hfst, hmat]
    show rep ++ replaceSub_fuel ('*' :: (List.replicate k '*' ++ [b])) rep n qI =
      rep ++ qI
    rw [replaceSub_fuel_starFree_fst _ rep n qI hq]

theorem replaceSub_trailing (a : Char) (m : Nat) (hm : 1 ≤ m) (rep : List Char) :
    ∀ (pI : List Char) (fuel : Nat),
      (pI ++ [a] ++ List.replicate m '*').length ≤ fuel →
      starFree (pI ++ [a]) →
      replaceSub_fuel (a :: List.replicate m '*') rep fuel
        (pI ++ [a] ++ List.replicate m '*') = pI ++ rep := by
  intro pI
  induction pI with
  | nil =>
    intro fuel hfuel hp
    cases fuel with
    | zero => simp at hfuel
    | succ n =>
      show replaceSub_fuel _ _ (n + 1) (a :: List.replicate m '*') = _
      simp only [replaceSub_fuel]
      have hmat : matchAt (a :: List.replicate m '*') (a :: List.replicate m '*') =
          some [] := by
        have := matchAt_append (a :: List.replicate m '*') []
        simpa using this
      rw [hmat]
      show rep ++ replaceSub_fuel (a :: List.replicate m '*') rep n [] = [] ++ rep
      rw [replaceSub_fuel_nil]
      simp
  | cons c pI' ih =>
    intro fuel hfuel hp
    cases fuel with
    | zero => simp at hfuel
    | succ n =>
      show replaceSub_fuel _ _ (n + 1)
        (c :: (pI' ++ [a] ++ List.replicate m '*')) = _
      simp only [replaceSub_fuel]
      have hmat : matchAt (a :: List.replicate m '*')
          (c :: (pI' ++ [a] ++ List.replicate m '*')) = none := by
        by_cases hc : a = c
        · obtain ⟨k, hk⟩ : ∃ k, m = k + 1 := ⟨m - 1, by omega⟩
          subst hk
          have hhd : ∀ h, (pI' ++ [a] ++ List.replicate (k + 1) '*').head? =
              some h → ¬ h = '*' := by
            intro h hh
            cases pI' with
            | nil =>
              simp only [List.nil_append, List.singleton_append, List.cons_append,
                List.head?_cons, Option.some.injEq] at hh
              rw [← hh]
              exact hp a (by simp)
            | cons c2 t =>
              simp only [List.cons_append, List.head?_cons, Option.some.injEq] at hh
              rw [← hh]
              exact hp c2 (by simp)
          cases hrest : (pI' ++ [a] ++ List.replicate (k + 1) '*') with
          | nil => simp at hrest
          | cons h t =>
            have hhne : ¬ ('*' : Char) = h :=
              fun he => hhd h (by rw [hrest]; rfl) he.symm
            simp [matchAt, hc, List.replicate_succ, hrest, hhne]
        · simp [matchAt, hc]
      rw [hmat]
      show c :: replaceSub_fuel (a :: List.replicate m '*') rep n
          (pI' ++ [a] ++ List.replicate m '*') = (c :: pI') ++ rep
      rw [ih n (by simp at hfuel ⊢; omega)
        (fun x hx => hp x (List.mem_cons_of_mem _ hx))]
      simp

theorem searchLeft_none_of_head (s : List Char)
    (h : ∀ c, s.head? = some c → ¬ c = '*') : searchLeft s = none := by
  cases s with
  | nil => rfl
  | cons c cs =>
    simp [searchLeft, List.takeWhile_cons, h c rfl]

theorem searchLeft_none_append (pI : List Char) (a : Char) (X : List Char)
    (hp : starFree (pI ++ [a])) : searchLeft (pI ++ [a] ++ X) = none := by
  apply searchLeft_none_of_head
  intro c hc
  cases pI with
  | nil =>
    simp only [List.nil_append, List.singleton_append, List.cons_append,
      List.head?_cons, Option.some.injEq] at hc
    rw [← hc]
    exact hp a (by simp)
  | cons c0 t =>
    simp only [List.cons_append, List.head?_cons, Option.some.injEq] at hc
    rw [← hc]
    exact hp c0 (by simp)

theorem searchLeft_replicate (m : Nat) (hm : 1 ≤ m) (b : Char) (t : List Char)
    (hb : isUpperAZ b = true) (hbs : ¬ b = '*') :
    searchLeft (List.replicate m '*' ++ b :: t) =
      some (List.replicate m '*' ++ [b]) := by
  obtain ⟨k, hk⟩ : ∃ k, m = k + 1 := ⟨m - 1, by omega⟩
  subst hk
  rw [searchLeft, takeWhile_star_replicate_append _ b t hbs,
    dropWhile_star_replicate_append _ b t hbs]
  simp [List.replicate_succ, hb]

theorem searchRight_none_of_last (s : List Char)
    (h : ∀ c, s.getLast? = some c → ¬ c = '*') : searchRight s = none := by
  cases hrev : s.reverse with
  | nil => simp [searchRight, hrev]
  | cons c t =>
    have hlast : s.getLast? = some c := by
      rw [← List.head?_reverse, hrev]
      rfl
    simp [searchRight, hrev, List.takeWhile_cons, h c hlast]

theorem searchRight_none_append (Y : List Char) (b : Char) (qI : List Char)
    (hq : starFree (b :: qI)) : searchRight (Y ++ b :: qI) = none := by
  apply searchRight_none_of_last
  intro c hc
  rw [List.getLast?_append_of_ne_nil Y (by simp)] at hc
  exact hq c (List.mem_of_mem_getLast? hc)

theorem searchRight_trailing (a : Char) (m : Nat) (hm : 1 ≤ m) (pI : List Char)
    (ha : isUpperAZ a = true) (has : ¬ a = '*') :
    searchRight (pI ++ [a] ++ List.replicate m '*') =
      some (a :: List.replicate m '*') := by
  obtain ⟨k, hk⟩ : ∃ k, m = k + 1 := ⟨m - 1, by omega⟩
  subst hk
  have hrev : (pI ++ [a] ++ List.replicate (k + 1) '*').reverse =
      List.replicate (k + 1) '*' ++ a :: pI.reverse := by
    simp [List.reverse_append, List.reverse_replicate]
  rw [searchRight, hrev, takeWhile_star_replicate_append _ a pI.reverse has,
    dropWhile_star_replicate_append _ a pI.reverse has]
  simp [List.replicate_succ, ha, List.reverse_replicate]
  rw [← List.replicate_succ', List.replicate_succ]

theorem rewriteInternal_eval (a b : Char) (m : Nat) :
    rewriteInternal (a :: List.replicate m '*' ++ [b]) =
      a :: List.replicate m 'N' ++ [b] := by
  rw [rewriteInternal]
  have h1 : (a :: List.replicate m '*' ++ [b]).take 1 = [a] := rfl
  have h2 : (a :: List.replicate m '*' ++ [b]).drop 1 = List.replicate m '*' ++ [b] := rfl
  have h3 : (List.replicate m '*' ++ [b]).dropLast = List.replicate m '*' :=
    List.dropLast_concat
  have h4 : (a :: List.replicate m '*' ++ [b]).length - 1 = (List.replicate m '*').length + 1 := by
    simp
  have h5 : (a :: List.replicate m '*' ++ [b]).drop ((List.replicate m '*').length + 1) = [b] := by
    rw [show (a :: List.replicate m '*' ++ [b]) = (a :: List.replicate m '*') ++ [b] from rfl]
    rw [show (List.replicate m '*').length + 1 = (a :: List.replicate m '*').length from by simp]
    exact List.drop_left _ _
  rw [h1, h2, h3, h4, h5]
  simp [List.map_replicate]

theorem rewriteLeft_eval (b : Char) (m : Nat) :
    rewriteLeft (List.replicate m '*' ++ [b]) = List.replicate m '-' ++ [b] := by
  rw [rewriteLeft]
  have h3 : (List.replicate m '*' ++ [b]).dropLast = List.replicate m '*' :=
    List.dropLast_concat
  have h4 : (List.replicate m '*' ++ [b]).length - 1 = (List.replicate m '*').length := by
    simp
  have h5 : (List.replicate m '*' ++ [b]).drop (List.replicate m '*').length = [b] :=
    List.drop_left _ _
  rw [h3, h4, h5]
  simp [List.map_replicate]

theorem rewriteRight_eval (a : Char) (m : Nat) :
    rewriteRight (a :: List.replicate m '*') = a :: List.replicate m '-' := by
  rw [rewriteRight]
  have h1 : (a :: List.replicate m '*').take 1 = [a] := rfl
  have h2 : (a :: List.replicate m '*').drop 1 = List.replicate m '*' := rfl
  rw [h1, h2]
  simp [List.map_replicate]

theorem swap_eval_internal (s x s1 : List Char) (hfi : findInternal s = [x])
    (hs1 : replaceSub s x (rewriteInternal x) = s1)
    (hL : searchLeft s1 = none) (hR : searchRight s1 = none) :
    swap_in_gaps_Ns s = s1 := by
  simp only [swap_in_gaps_Ns, hfi, List.foldl_cons, List.foldl_nil, hs1, hL, hR]

theorem swap_eval_leading (s g s2 : List Char) (hfi : findInternal s = [])
    (hL : searchLeft s = some g) (hs2 : replaceSub s g (rewriteLeft g) = s2)
    (hR : searchRight s2 = none) : swap_in_gaps_Ns s = s2 := by
  simp only [swap_in_gaps_Ns, hfi, List.foldl_nil, hL, hs2, hR]

theorem swap_eval_trailing (s g s2 : List Char) (hfi : findInternal s = [])
    (hL : searchLeft s = none) (hR : searchRight s = some g)
    (hs2 : replaceSub s g (rewriteRight g) = s2) : swap_in_gaps_Ns s = s2 := by
  simp only [swap_in_gaps_Ns, hfi, List.foldl_nil, hL, hR, hs2]

/-! ### C3 — gap/uncovered normalization -/

/-- Counterexample to claim C3 as stated. In "A*A*A" both sentinel runs lie
strictly between alphabetic characters, so the claim demands "ANANA"; but
re.findall consumes the closing letter of the first match, so only the
first run is matched and the normalizer returns "ANA*A" — the second run
(position 3) is left as a sentinel. -/
theorem C3_counterexample :
    swap_in_gaps_Ns ['A', '*', 'A', '*', 'A'] = ['A', 'N', 'A', '*', 'A'] ∧
    ¬ (['A', 'N', 'A', '*', 'A'] = ['A', 'N', 'A', 'N', 'A']) := by
  refine ⟨by decide, by decide⟩

/-- Claim C3 (status: corrected). For a sequence containing a single
maximal sentinel run: a run strictly between two alphabetic characters is
rewritten to Ns (flanking letters untouched), a run at the very start
followed by a letter is rewritten to gaps, and a run at the very end
preceded by a letter is rewritten to gaps. (With several letter-flanked
runs, matches are consumed non-overlappingly, so a run whose left flank
was consumed by the previous match is left unrewritten — see the
counterexample "A*A*A" to "ANA*A".) -/
theorem C3_amended (a b : Char) (pI qI : List Char) (m : Nat) (hm : 1 ≤ m)
    (ha : isUpperAZ a = true) (hb : isUpperAZ b = true)
    (hp : starFree (pI ++ [a])) (hq : starFree (b :: qI)) :
    swap_in_gaps_Ns (pI ++ [a] ++ List.replicate m '*' ++ b :: qI) =
      pI ++ [a] ++ List.replicate m 'N' ++ b :: qI ∧
    swap_in_gaps_Ns (List.replicate m '*' ++ b :: qI) =
      List.replicate m '-' ++ b :: qI ∧
    swap_in_gaps_Ns (pI ++ [a] ++ List.replicate m '*') =
      pI ++ [a] ++ List.replicate m '-' := by
  have hqtail : starFree qI := fun c hc => hq c (List.mem_cons_of_mem _ hc)
  refine ⟨?_, ?_, ?_⟩
  · apply swap_eval_internal _ (a :: List.replicate m '*' ++ [b])
    · rw [findInternal]
      exact findInternal_main a b qI m hm ha hb hq pI _ (le_refl _) hp
    · rw [rewriteInternal_eval, replaceSub]
      rw [show (pI ++ [a] ++ List.replicate m '*' ++ b :: qI) =
        pI ++ [a] ++ List.replicate m '*' ++ [b] ++ qI from by simp]
      rw [replaceSub_internal a b m hm _ qI hqtail pI _ (le_refl _) hp]
      simp
    · have h0 := searchLeft_none_append pI a (List.replicate m 'N' ++ b :: qI) hp
      simpa [List.append_assoc] using h0
    · have h0 := searchRight_none_append (pI ++ [a] ++ List.replicate m 'N') b qI hq
      simpa [List.append_assoc] using h0
  · apply swap_eval_leading _ (List.replicate m '*' ++ [b])
    · rw [findInternal]
      exact findInternal_leading b qI m hq _ (le_refl _)
    · exact searchLeft_replicate m hm b qI hb (isUpperAZ_ne_star hb)
    · rw [rewriteLeft_eval, replaceSub]
      rw [show (List.replicate m '*' ++ b :: qI) =
        List.replicate m '*' ++ [b] ++ qI from by simp]
      rw [replaceSub_leading b m hm _ qI hqtail _ (le_refl _)]
      simp
    · exact searchRight_none_append (List.replicate m '-') b qI hq
  · apply swap_eval_trailing _ (a :: List.replicate m '*')
    · rw [findInternal]
      exact findInternal_trailing a m ha pI _ (le_refl _) hp
    · exact searchLeft_none_append pI a (List.replicate m '*') hp
    · exact searchRight_trailing a m hm pI ha (isUpperAZ_ne_star ha)
    · rw [rewriteRight_eval, replaceSub]
      rw [replaceSub_trailing a m hm _ pI _ (le_refl _) hp]
      simp

/-- Witness for C3_amended: the three spec examples AA***AA to AANNNAA,
***AA to ---AA and AA*** to AA---. -/
theorem C3_amended_witness :
    swap_in_gaps_Ns (['A'] ++ ['A'] ++ List.replicate 3 '*' ++ 'A' :: ['A']) =
      ['A'] ++ ['A'] ++ List.replicate 3 'N' ++ 'A' :: ['A'] ∧
    swap_in_gaps_Ns (List.replicate 3 '*' ++ 'A' :: ['A']) =
      List.replicate 3 '-' ++ 'A' :: ['A'] ∧
    swap_in_gaps_Ns (['A'] ++ ['A'] ++ List.replicate 3 '*') =
      ['A'] ++ ['A'] ++ List.replicate 3 '-' :=
  C3_amended 'A' 'A' ['A'] ['A'] 3 (by decide) (by decide) (by decide)
    (by unfold starFree; decide) (by unfold starFree; decide)

/-! ### C7 — per-site flattening of a block -/

theorem zipCols_fuel_get? (j : Nat) :
    ∀ (rows : List (List Char)) (rlen fuel : Nat), ¬ rows = [] →
      (∀ r ∈ rows, r.length = rlen) → rlen ≤ fuel → j < rlen →
      (zipCols_fuel fuel rows).get? j =
        some (rows.map (fun r => r.getD j '?')) := by
  induction j with
  | zero =>
    intro rows rlen fuel hne hlen hfuel hj
    cases fuel with
    | zero => omega
    | succ n =>
      have hall : rows.all (fun r => !r.isEmpty) = true := by
        rw [List.all_eq_true]
        intro r hr
        have hr1 := hlen r hr
        cases r with
        | nil => simp at hr1; omega
        | cons c t => simp
      cases rows with
      | nil => exact absurd rfl hne
      | cons r0 rest =>
        simp only [zipCols_fuel, hall, if_true, List.get?_cons_zero]
        congr 1
        rw [List.map_eq_map_iff]
        intro r hr
        have hr1 := hlen r hr
        cases r with
        | nil => simp at hr1; omega
        | cons c t => rfl
  | succ j ih =>
    intro rows rlen fuel hne hlen hfuel hj
    cases fuel with
    | zero => omega
    | succ n =>
      have hall : rows.all (fun r => !r.isEmpty) = true := by
        rw [List.all_eq_true]
        intro r hr
        have hr1 := hlen r hr
        cases r with
        | nil => simp at hr1; omega
        | cons c t => simp
      cases rows with
      | nil => exact absurd rfl hne
      | cons r0 rest =>
        simp only [zipCols_fuel, hall, if_true, List.get?_cons_succ]
        rw [ih ((r0 :: rest).map List.tail) (rlen - 1) n (by simp)
          (by
            intro r hr
            rcases List.mem_map.mp hr with ⟨r2, hr2, hre⟩
            rw [← hre, List.length_tail, hlen r2 hr2])
          (by omega) (by omega)]
        congr 1
        rw [List.map_map, List.map_eq_map_iff]
        intro r hr
        have hr1 := hlen r hr
        cases r with
        | nil => simp at hr1; omega
        | cons c t => rfl

theorem le_foldl_max (c : Char) (rest : List Char) : c ≤ rest.foldl max c := by
  induction rest generalizing c with
  | nil => exact le_refl c
  | cons d t ih =>
    rw [List.foldl_cons]
    exact le_trans (le_max_left c d) (ih (max c d))

theorem foldl_max_mem (c : Char) (rest : List Char) : rest.foldl max c ∈ c :: rest := by
  induction rest generalizing c with
  | nil => simp
  | cons d t ih =>
    rw [List.foldl_cons]
    rcases List.mem_cons.mp (ih (max c d)) with h | h
    · rcases max_choice c d with hm | hm
      · rw [h, hm]
        exact List.mem_cons_self _ _
      · rw [h, hm]
        exact List.mem_cons_of_mem _ (List.mem_cons_self _ _)
    · exact List.mem_cons_of_mem _ (List.mem_cons_of_mem _ h)

theorem foldl_max_le (c : Char) (rest : List Char) :
    ∀ x ∈ c :: rest, x ≤ rest.foldl max c := by
  induction rest generalizing c with
  | nil =>
    intro x hx
    simp at hx
    simp [hx]
  | cons d t ih =>
    intro x hx
    rw [List.foldl_cons]
    rcases List.mem_cons.mp hx with h | h
    · rw [h]
      exact le_trans (le_max_left c d) (le_foldl_max (max c d) t)
    · rcases List.mem_cons.mp h with h2 | h2
      · rw [h2]
        exact le_trans (le_max_right c d) (le_foldl_max (max c d) t)
      · exact ih (max c d) x (List.mem_cons_of_mem _ h2)

theorem alpha_gt_dash {c : Char} (hc : c.isAlpha = true) : '-' < c := by
  have : ('A' : Char) ≤ c ∨ ('a' : Char) ≤ c := by
    simp [Char.isAlpha, Char.isUpper, Char.isLower] at hc
    rcases hc with ⟨h1, _⟩ | ⟨h1, _⟩
    · exact Or.inl h1
    · exact Or.inr h1
  rcases this with h | h
  · exact lt_of_lt_of_le (by decide) h
  · exact lt_of_lt_of_le (by decide) h

/-- Claim C7 (status: confirmed). For every reference column of a block of
two or more equal-length per-read strings: the merged character is the
per-column result of check_and_get_flattened_site; it is the ambiguity
marker when more than one read contributes an alphabetic character at the
column, and otherwise it is the maximum contributed character by ordinal
(an element of the column that bounds every contribution); moreover any
alphabetic character outranks the gap, which outranks the sentinel. -/
theorem C7_flatten_merge (rows : List (List Char)) (rlen : Nat) (j : Nat)
    (h2 : 2 ≤ rows.length) (hlen : ∀ r ∈ rows, r.length = rlen) (hj : j < rlen) :
    (flatten_block rows).get? j =
      some (check_and_get_flattened_site (rows.map (fun r => r.getD j '?'))) ∧
    (1 < ((rows.map (fun r => r.getD j '?')).filter Char.isAlpha).length →
      check_and_get_flattened_site (rows.map (fun r => r.getD j '?')) = '&') ∧
    (¬ 1 < ((rows.map (fun r => r.getD j '?')).filter Char.isAlpha).length →
      check_and_get_flattened_site (rows.map (fun r => r.getD j '?')) ∈
          rows.map (fun r => r.getD j '?') ∧
        ∀ c ∈ rows.map (fun r => r.getD j '?'),
          c ≤ check_and_get_flattened_site (rows.map (fun r => r.getD j '?'))) ∧
    (∀ c : Char, c.isAlpha = true → '*' < '-' ∧ '-' < c) := by
  have hne : ¬ rows = [] := by
    intro he
    rw [he] at h2
    simp at h2
  have hhead : (rows.headD []).length = rlen := by
    cases rows with
    | nil => exact absurd rfl hne
    | cons r0 rest => exact hlen r0 (List.mem_cons_self _ _)
  refine ⟨?_, ?_, ?_, ?_⟩
  · rw [flatten_block, List.get?_map, zipCols, hhead,
      zipCols_fuel_get? j rows rlen rlen hne hlen (le_refl _) hj]
    rfl
  · intro hcount
    rw [check_and_get_flattened_site.eq_def, if_pos hcount]
  · intro hcount
    rw [check_and_get_flattened_site.eq_def, if_neg hcount]
    cases hsite : rows.map (fun r => r.getD j '?') with
    | nil =>
      rw [hsite] at hcount
      exact absurd (by rw [List.map_eq_nil] at hsite; rw [hsite] at h2; simp at h2)
        (fun h => h)
    | cons c rest =>
      exact ⟨foldl_max_mem c rest, foldl_max_le c rest⟩
  · intro c hc
    exact ⟨by decide, alpha_gt_dash hc⟩

/-- Witness for C7_flatten_merge at a concrete two-read block. -/
theorem C7_flatten_merge_witness :
    (flatten_block [['A', '-', 'C'], ['*', 'C', 'G']]).get? 0 =
      some (check_and_get_flattened_site
        (([['A', '-', 'C'], ['*', 'C', 'G']] : List (List Char)).map
          (fun r => r.getD 0 '?'))) ∧
    (1 < ((([['A', '-', 'C'], ['*', 'C', 'G']] : List (List Char)).map
          (fun r => r.getD 0 '?')).filter Char.isAlpha).length →
      check_and_get_flattened_site
        (([['A', '-', 'C'], ['*', 'C', 'G']] : List (List Char)).map
          (fun r => r.getD 0 '?')) = '&') ∧
    (¬ 1 < ((([['A', '-', 'C'], ['*', 'C', 'G']] : List (List Char)).map
          (fun r => r.getD 0 '?')).filter Char.isAlpha).length →
      check_and_get_flattened_site
          (([['A', '-', 'C'], ['*', 'C', 'G']] : List (List Char)).map
            (fun r => r.getD 0 '?')) ∈
          ([['A', '-', 'C'], ['*', 'C', 'G']] : List (List Char)).map
            (fun r => r.getD 0 '?') ∧
        ∀ c ∈ ([['A', '-', 'C'], ['*', 'C', 'G']] : List (List Char)).map
            (fun r => r.getD 0 '?'),
          c ≤ check_and_get_flattened_site
            (([['A', '-', 'C'], ['*', 'C', 'G']] : List (List Char)).map
              (fun r => r.getD 0 '?'))) ∧
    (∀ c : Char, c.isAlpha = true → '*' < '-' ∧ '-' < c) :=
  C7_flatten_merge [['A', '-', 'C'], ['*', 'C', 'G']] 3 0 (by decide)
    (by intro r hr; fin_cases hr <;> rfl) (by decide)

/-! ### C9 — the reference-coordinate string invariant -/

theorem except_ok_bind {α β : Type} (a : α) (f : α → Except String β) :
    (Except.ok a >>= f) = f a := rfl

theorem except_pure_eq {α : Type} (a : α) : (pure a : Except String α) = Except.ok a := rfl

theorem lambda_dict_valid (c : Char) (nn : Nat) (q0 r0 : Nat) (SEQ : List Char)
    (hc : c ∈ validOps) :
    lambda_dict c q0 r0 nn SEQ =
      Except.ok (q0 + opQuery (c, nn), r0 + opRef (c, nn),
        opExtension SEQ q0 (c, nn)) := by
  fin_cases hc <;> simp [lambda_dict, opQuery, opRef, opExtension]

theorem foldM_lambda_eq (SEQ : List Char) (ops : List (Char × Nat)) :
    ∀ (s0 : List Char) (q0 r0 : Nat), (∀ o ∈ ops, o.1 ∈ validOps) →
    (ops.foldlM
        (fun (st : List Char × Nat × Nat) o => do
          let r ← lambda_dict o.1 st.2.1 st.2.2 o.2 SEQ
          pure (st.1 ++ r.2.2, r.1, r.2.1))
        (s0, q0, r0) : Except String (List Char × Nat × Nat)) =
      Except.ok (s0 ++ extConcat SEQ q0 ops,
        q0 + (ops.map opQuery).sum, r0 + (ops.map opRef).sum) := by
  induction ops with
  | nil =>
    intro s0 q0 r0 h
    show (pure (s0, q0, r0) : Except String (List Char × Nat × Nat)) = _
    rw [except_pure_eq]
    simp [extConcat]
  | cons o rest ih =>
    intro s0 q0 r0 h
    rcases o with ⟨c, nn⟩
    have hlam := lambda_dict_valid c nn q0 r0 SEQ (h (c, nn) (List.mem_cons_self _ _))
    rw [List.foldlM_cons]
    show ((do
        let r ← lambda_dict c q0 r0 nn SEQ
        pure (s0 ++ r.2.2, r.1, r.2.1) : Except String (List Char × Nat × Nat)) >>=
      fun x => List.foldlM _ x rest) = _
    rw [hlam]
    rw [show ((do
        let r ← (Except.ok (q0 + opQuery (c, nn), r0 + opRef (c, nn),
          opExtension SEQ q0 (c, nn)) : Except String (Nat × Nat × List Char))
        pure (s0 ++ r.2.2, r.1, r.2.1)) >>= fun x =>
          (List.foldlM (fun (st : List Char × Nat × Nat) o => do
            let r ← lambda_dict o.1 st.2.1 st.2.2 o.2 SEQ
            pure (st.1 ++ r.2.2, r.1, r.2.1)) x rest : Except String _)) =
        List.foldlM (fun (st : List Char × Nat × Nat) o => do
            let r ← lambda_dict o.1 st.2.1 st.2.2 o.2 SEQ
            pure (st.1 ++ r.2.2, r.1, r.2.1))
          (s0 ++ opExtension SEQ q0 (c, nn), q0 + opQuery (c, nn),
            r0 + opRef (c, nn)) rest from rfl]
    rw [ih (s0 ++ opExtension SEQ q0 (c, nn)) (q0 + opQuery (c, nn))
      (r0 + opRef (c, nn)) (fun o2 ho2 => h o2 (List.mem_cons_of_mem _ ho2))]
    simp [extConcat, List.append_assoc, Nat.add_assoc]

theorem extConcat_length_le (SEQ : List Char) (ops : List (Char × Nat)) :
    ∀ q0, (extConcat SEQ q0 ops).length ≤ refConsumedSum ops := by
  induction ops with
  | nil => intro q0; simp [extConcat, refConsumedSum]
  | cons o rest ih =>
    intro q0
    simp only [extConcat, List.length_append, refConsumedSum, List.map_cons,
      List.sum_cons]
    have h1 : (opExtension SEQ q0 o).length ≤ opRef o := by
      rcases o with ⟨c, nn⟩
      by_cases hM : c = 'M' ∨ c = '=' ∨ c = 'X'
      · have : opRef (c, nn) = nn := by
          rcases hM with h | h | h <;> simp [opRef, h]
        rw [this]
        simp only [opExtension, hM, if_true]
        simpa using List.length_take_le nn (SEQ.drop q0)
      · by_cases hDN : c = 'D' ∨ c = 'N'
        · have : opRef (c, nn) = nn := by
            rcases hDN with h | h <;> simp [opRef, h]
          rw [this]
          simp [opExtension, hM, hDN]
        · simp [opExtension, hM, hDN]
    have h2 := ih (q0 + opQuery o)
    have h3 : refConsumedSum rest = (rest.map opRef).sum := rfl
    omega

/-- Claim C9 (status: confirmed). For every SAM alignment line with
0-based POS at least 0 whose CIGAR operation codes are legal SAM codes and
whose reference-consuming lengths (M, D, N, =, X) sum with POS to at most
rlen, get_one_string returns a string of exactly rlen characters: POS
leading sentinels, then the per-operation extensions in CIGAR order, then
trailing sentinels up to rlen. -/
theorem C9_get_one_string (POS : Int) (CIGAR SEQ : List Char) (rlen : Nat)
    (hpos : 0 ≤ POS)
    (hops : ∀ o ∈ get_sam_cigar_operations CIGAR, o.1 ∈ validOps)
    (hlen : POS.toNat + refConsumedSum (get_sam_cigar_operations CIGAR) ≤ rlen) :
    ∃ s, get_one_string POS CIGAR SEQ rlen = Except.ok (some s) ∧
      s.length = rlen ∧
      s = List.replicate POS.toNat '*' ++
          extConcat SEQ 0 (get_sam_cigar_operations CIGAR) ++
          List.replicate (rlen - (POS.toNat +
            (extConcat SEQ 0 (get_sam_cigar_operations CIGAR)).length)) '*' := by
  have hext := extConcat_length_le SEQ (get_sam_cigar_operations CIGAR) 0
  have hrun : get_one_string POS CIGAR SEQ rlen =
      Except.ok (some ((List.replicate POS.toNat '*' ++
        extConcat SEQ 0 (get_sam_cigar_operations CIGAR)) ++
        List.replicate (rlen - (List.replicate POS.toNat '*' ++
          extConcat SEQ 0 (get_sam_cigar_operations CIGAR)).length) '*')) := by
    rw [get_one_string, if_neg (by omega)]
    show (((get_sam_cigar_operations CIGAR).foldlM
        (fun (st : List Char × Nat × Nat) o => do
          let r ← lambda_dict o.1 st.2.1 st.2.2 o.2 SEQ
          pure (st.1 ++ r.2.2, r.1, r.2.1))
        (List.replicate POS.toNat '*', 0, POS.toNat) : Except String _) >>=
      fun st => pure (some (st.1 ++ List.replicate (rlen - st.1.length) '*'))) = _
    rw [foldM_lambda_eq SEQ (get_sam_cigar_operations CIGAR)
      (List.replicate POS.toNat '*') 0 POS.toNat hops, except_ok_bind]
    rfl
  refine ⟨_, hrun, ?_, ?_⟩
  · simp only [List.length_append, List.length_replicate]
    omega
  · simp only [List.length_append, List.length_replicate, List.append_assoc]

/-- Witness for C9 at the spec's own example: CIGAR 3M2D4M, a 7-base SEQ,
POS 10, reference length 30. -/
theorem C9_get_one_string_witness :
    ∃ s, get_one_string 10 ('3' :: 'M' :: '2' :: 'D' :: '4' :: 'M' :: [])
        ('A' :: 'C' :: 'G' :: 'T' :: 'A' :: 'C' :: 'G' :: []) 30 =
        Except.ok (some s) ∧
      s.length = 30 ∧
      s = List.replicate (10 : Int).toNat '*' ++
          extConcat ('A' :: 'C' :: 'G' :: 'T' :: 'A' :: 'C' :: 'G' :: []) 0
            (get_sam_cigar_operations ('3' :: 'M' :: '2' :: 'D' :: '4' :: 'M' :: [])) ++
          List.replicate (30 - ((10 : Int).toNat +
            (extConcat ('A' :: 'C' :: 'G' :: 'T' :: 'A' :: 'C' :: 'G' :: []) 0
              (get_sam_cigar_operations
                ('3' :: 'M' :: '2' :: 'D' :: '4' :: 'M' :: []))).length)) '*' :=
  C9_get_one_string 10 ('3' :: 'M' :: '2' :: 'D' :: '4' :: 'M' :: [])
    ('A' :: 'C' :: 'G' :: 'T' :: 'A' :: 'C' :: 'G' :: []) 30
    (by decide) (by decide) (by decide)

/-! ### C6 and C10 — converter output: registry passthrough and new-row order -/

theorem aHas_aSet (d : List (String × α)) (k k' : String) (v : α) :
    aHas (aSet d k v) k' = (aHas d k' || decide (k = k')) := by
  induction d with
  | nil => by_cases hk : k = k' <;> simp [aSet, aHas, hk]
  | cons p rest ih =>
    by_cases hp : p.1 = k
    · by_cases hk : k = k' <;> simp [aSet, aHas, hp, hk]
    · simp [aSet, aHas, hp, ih, Bool.or_assoc]

theorem aHas_foldl_aSet_persist (pairs : List (String × α)) (acc : List (String × α))
    (k : String) (h : aHas acc k = true) :
    aHas (pairs.foldl (fun d p => aSet d p.1 p.2) acc) k = true := by
  induction pairs generalizing acc with
  | nil => exact h
  | cons p rest ih =>
    rw [List.foldl_cons]
    exact ih _ (by rw [aHas_aSet, h, Bool.true_or])

theorem aHas_foldl_aSet_of_mem (pairs : List (String × α)) (acc : List (String × α))
    (k : String) (hmem : k ∈ pairs.map Prod.fst) :
    aHas (pairs.foldl (fun d p => aSet d p.1 p.2) acc) k = true := by
  induction pairs generalizing acc with
  | nil => simp at hmem
  | cons p rest ih =>
    rw [List.foldl_cons]
    simp only [List.map_cons, List.mem_cons] at hmem
    rcases hmem with h | h
    · refine aHas_foldl_aSet_persist rest _ k ?_
      rw [aHas_aSet, h]
      simp
    · exact ih _ h

theorem aGetD_foldl_aSet_notmem (pairs : List (String × α)) (acc : List (String × α))
    (k : String) (v₀ : α) (h : k ∉ pairs.map Prod.fst) :
    aGetD (pairs.foldl (fun d p => aSet d p.1 p.2) acc) k v₀ = aGetD acc k v₀ := by
  induction pairs generalizing acc with
  | nil => rfl
  | cons p rest ih =>
    simp only [List.map_cons, List.mem_cons, not_or] at h
    rw [List.foldl_cons, ih _ h.2]
    exact aGetD_aSet_diff acc p.1 k p.2 v₀ (fun he => h.1 he.symm)

theorem aGetD_foldl_aSet_mem (pairs : List (String × α)) (acc : List (String × α))
    (k : String) (v : α) (v₀ : α)
    (hnd : (pairs.map Prod.fst).Nodup) (hmem : (k, v) ∈ pairs) :
    aGetD (pairs.foldl (fun d p => aSet d p.1 p.2) acc) k v₀ = v := by
  induction pairs generalizing acc with
  | nil => simp at hmem
  | cons p rest ih =>
    simp only [List.map_cons, List.nodup_cons] at hnd
    rw [List.foldl_cons]
    rcases List.mem_cons.mp hmem with h | h
    · have hk : k ∉ rest.map Prod.fst := by
        rw [show k = p.1 from congrArg Prod.fst h]
        exact hnd.1
      rw [aGetD_foldl_aSet_notmem rest _ k v₀ hk, ← h]
      exact aGetD_aSet_same acc k v v₀
    · exact ih _ hnd.2 h

theorem aGetD_map_self (ids : List String) (f : String → α) (x : String) (v₀ : α)
    (hx : x ∈ ids) :
    aGetD (ids.map (fun y => (y, f y))) x v₀ = f x := by
  induction ids with
  | nil => simp at hx
  | cons y rest ih =>
    rcases List.mem_cons.mp hx with h1 | h1
    · subst h1
      simp [aGetD]
    · by_cases hy : y = x
      · subst hy
        simp [aGetD]
      · simp [aGetD, hy, ih h1]

theorem getF_dictOfPairs_at (keys vals : List String) (hnd : keys.Nodup)
    (hlen : vals.length = keys.length) (i : Nat) (hi : i < keys.length)
    (hv : i < vals.length) :
    getF (dictOfPairs (keys.zip vals)) keys[i] = vals[i] := by
  have hfst : (keys.zip vals).map Prod.fst = keys :=
    List.map_fst_zip keys vals (le_of_eq hlen.symm)
  have hzl : i < (keys.zip vals).length := by
    simp [List.length_zip]
    omega
  have hmem : (keys[i], vals[i]) ∈ keys.zip vals := by
    have hz : (keys.zip vals)[i] = (keys[i], vals[i]) := List.getElem_zip
    rw [← hz]
    exact List.getElem_mem _
  show aGetD ((keys.zip vals).foldl (fun d p => aSet d p.1 p.2) []) keys[i] "" =
    vals[i]
  exact aGetD_foldl_aSet_mem _ _ _ _ "" (by rw [hfst]; exact hnd) hmem

theorem map_getF_dictOfPairs (keys vals : List String) (hnd : keys.Nodup)
    (hlen : vals.length = keys.length) :
    keys.map (fun k => getF (dictOfPairs (keys.zip vals)) k) = vals := by
  apply List.ext_getElem
  · simp [hlen]
  · intro i h1 h2
    simp only [List.getElem_map]
    exact getF_dictOfPairs_at keys vals hnd hlen i (by simpa using h1) h2

theorem foldl_expand_noop (fl : List String) (d : Record)
    (h : ∀ x ∈ fl, aHas d x = true) :
    fl.foldl (fun d x => if aHas d x then d else d ++ [(x, "")]) d = d := by
  induction fl with
  | nil => rfl
  | cons x rest ih =>
    rw [List.foldl_cons, if_pos (h x (List.mem_cons_self x rest))]
    exact ih (fun y hy => h y (List.mem_cons_of_mem x hy))

theorem expand_dict_noop (d : Record) (freq fopt : List String)
    (h1 : ∀ x ∈ freq, aHas d x = true) (h2 : ∀ x ∈ fopt, aHas d x = true) :
    expand_dict d freq fopt = d := by
  show fopt.foldl _ (freq.foldl _ d) = d
  rw [foldl_expand_noop freq d h1, foldl_expand_noop fopt d h2]

theorem pySplitChar_cons (sep c : Char) (t : List Char) :
    pySplitChar sep (c :: t) =
      match pySplitChar sep t with
      | [] => [[c]]
      | g :: gs => if c = sep then [] :: g :: gs else (c :: g) :: gs := rfl

theorem pySplitChar_ne_nil (sep : Char) (l : List Char) :
    pySplitChar sep l ≠ [] := by
  induction l with
  | nil => simp [pySplitChar]
  | cons c t ih =>
    rw [pySplitChar_cons]
    rcases h : pySplitChar sep t with _ | ⟨g, gs⟩
    · simp
    · by_cases hc : c = sep <;> simp [hc]

theorem join_pySplitChar (l : List Char) :
    joinSep "," ((pySplitChar ',' l).map (fun g => String.mk g)) = String.mk l := by
  induction l with
  | nil => rfl
  | cons c t ih =>
    rw [pySplitChar_cons]
    rcases h : pySplitChar ',' t with _ | ⟨g, gs⟩
    · exact absurd h (pySplitChar_ne_nil ',' t)
    · rw [h] at ih
      by_cases hc : c = ','
      · subst hc
        have ih2 : joinSep "," (String.mk g :: gs.map (fun g => String.mk g)) =
            String.mk t := ih
        show String.mk [] ++ "," ++
          joinSep "," (String.mk g :: gs.map (fun g => String.mk g)) = String.mk (',' :: t)
        rw [ih2]
        apply String.ext
        rw [String.data_append, String.data_append]
        show ([] : List Char) ++ [','] ++ t = ',' :: t
        simp
      · show joinSep ","
          ((if c = ',' then [] :: g :: gs else (c :: g) :: gs).map (fun g => String.mk g)) =
          String.mk (c :: t)
        rw [if_neg hc]
        rcases gs with _ | ⟨g2, gs2⟩
        · show String.mk (c :: g) = String.mk (c :: t)
          have hg : String.mk g = String.mk t := ih
          have hgt : g = t := congrArg String.data hg
          rw [hgt]
        · have ih2 : String.mk g ++ "," ++
              joinSep "," (String.mk g2 :: gs2.map (fun g => String.mk g)) =
              String.mk t := ih
          have iht : g ++ [','] ++
              (joinSep "," (String.mk g2 :: gs2.map (fun g => String.mk g))).data = t := by
            have hd := congrArg String.data ih2
            rw [String.data_append, String.data_append] at hd
            exact hd
          show String.mk (c :: g) ++ "," ++
            joinSep "," (String.mk g2 :: gs2.map (fun g => String.mk g)) = String.mk (c :: t)
          apply String.ext
          rw [String.data_append, String.data_append]
          show (c :: g) ++ [','] ++
            (joinSep "," (String.mk g2 :: gs2.map (fun g => String.mk g))).data = c :: t
          rw [← iht]
          simp

theorem joinSep_pySplit (s : String) : joinSep "," (pySplit ',' s) = s := by
  rw [pySplit, join_pySplitChar]

theorem except_error_bind {α β : Type} (s : String) (f : α → Except String β) :
    (Except.error s >>= f) = Except.error s := rfl

/-- A pre-stripped CSV line with as many fields as the canonical header
renders back byte-identically when its record is written in the canonical
column order. -/
theorem row_roundtrip (r : String)
    (hstrip : pyStrip r = r)
    (hlen : (pySplit ',' (pyStrip r)).length = canonFields.length) :
    get_one_line (csv_row_record canonFields (fields_gisaid ++ fields_edin) fields0 r)
      canonFields = r := by
  rw [hstrip] at hlen
  have hnd : canonFields.Nodup := by decide
  have hmem1 : ∀ x ∈ fields_gisaid ++ fields_edin, x ∈ canonFields := by decide
  have hmem2 : ∀ x ∈ fields0, x ∈ canonFields := by decide
  have hfst : (canonFields.zip (pySplit ',' r)).map Prod.fst = canonFields :=
    List.map_fst_zip _ _ (le_of_eq hlen.symm)
  have hiHas : ∀ x ∈ canonFields,
      aHas (dictOfPairs (canonFields.zip (pySplit ',' r))) x = true := by
    intro x hx
    exact aHas_foldl_aSet_of_mem _ _ x (by rw [hfst]; exact hx)
  rw [csv_row_record, hstrip,
    expand_dict_noop _ _ _ (fun x hx => hiHas x (hmem1 x hx))
      (fun x hx => hiHas x (hmem2 x hx)),
    get_one_line,
    map_getF_dictOfPairs canonFields (pySplit ',' r) hnd hlen]
  exact joinSep_pySplit r

/-- Unwinding the CSV row loop: a successful run means every line had the
right number of fields, the order list is the per-line accession ids, and
the dict is the per-line records keyed by id (later lines overwriting). -/
theorem csv_foldM_ok (keys freq fopt : List String) (rows : List String) :
    ∀ (st0 : List String × List (String × Record))
      (res : List String × List (String × Record)),
    rows.foldlM (csv_row_step keys freq fopt) st0 = Except.ok res →
    (∀ r ∈ rows, (pySplit ',' (pyStrip r)).length = keys.length) ∧
    res.1 = st0.1 ++ rows.map (csv_row_id keys freq fopt) ∧
    res.2 = (rows.map (fun r =>
        (csv_row_id keys freq fopt r, csv_row_record keys freq fopt r))).foldl
      (fun d p => aSet d p.1 p.2) st0.2 := by
  induction rows with
  | nil =>
    intro st0 res h
    have hres : st0 = res := by
      have h2 : (Except.ok st0 : Except String _) = Except.ok res := h
      injection h2
    subst hres
    simp
  | cons r rest ih =>
    intro st0 res h
    rw [List.foldlM_cons] at h
    by_cases hlen : (pySplit ',' (pyStrip r)).length = keys.length
    · have hstep : csv_row_step keys freq fopt st0 r =
          Except.ok (st0.1 ++ [csv_row_id keys freq fopt r],
            aSet st0.2 (csv_row_id keys freq fopt r)
              (csv_row_record keys freq fopt r)) := by
        rw [csv_row_step, if_neg (fun hc => hc hlen)]
        rfl
      rw [hstep, except_ok_bind] at h
      obtain ⟨ha, hb, hc⟩ := ih _ _ h
      refine ⟨?_, ?_, ?_⟩
      · intro x hx
        rcases List.mem_cons.mp hx with h1 | h1
        · rw [h1]; exact hlen
        · exact ha x h1
      · rw [hb]; simp
      · rw [hc]; simp
    · exfalso
      have hstep : csv_row_step keys freq fopt st0 r =
          Except.error "Badly formatted csv file" := by
        rw [csv_row_step, if_pos hlen]
      rw [hstep, except_error_bind] at h
      exact Except.noConfusion h

theorem mapStage_mapStage (a b : Record → Record) (x : List (String × Record)) :
    mapStage a (mapStage b x) = mapStage (fun r => a (b r)) x := by
  simp [mapStage, List.map_map, Function.comp]

theorem mapStageE_cons (g : Record → Except String Record) (p : String × Record)
    (t : List (String × Record)) :
    mapStageE g (p :: t) =
      (g p.2 >>= fun r => (mapStageE g t >>= fun rs => pure ((p.1, r) :: rs))) := by
  rw [mapStageE, mapStageE, List.mapM_cons]
  cases g p.2 with
  | error e => rfl
  | ok r => rfl

theorem mapStageE_cons_pair (g : Record → Except String Record) (k : String)
    (r : Record) (t : List (String × Record)) :
    mapStageE g ((k, r) :: t) =
      (g r >>= fun v => (mapStageE g t >>= fun rs => pure ((k, v) :: rs))) := by
  rw [mapStageE_cons]

theorem mapStageE_mapStage (g : Record → Except String Record) (s : Record → Record)
    (x : List (String × Record)) :
    mapStageE g (mapStage s x) = mapStageE (fun r => g (s r)) x := by
  induction x with
  | nil => rfl
  | cons p t ih =>
    show mapStageE g ((p.1, s p.2) :: mapStage s t) = _
    rw [mapStageE_cons, mapStageE_cons, ih]

theorem bind_mapStageE_pure_map (g : Record → Except String Record)
    (s : Record → Record) (x : List (String × Record)) :
    (mapStageE g x >>= fun y => pure (mapStage s y)) =
      mapStageE (fun r => g r >>= fun v => pure (s v)) x := by
  induction x with
  | nil => rfl
  | cons p t ih =>
    rw [mapStageE_cons, mapStageE_cons, ← ih]
    cases g p.2 with
    | error e => rfl
    | ok r =>
      cases mapStageE g t with
      | error e => rfl
      | ok rs => rfl

/-- Running one fallible stage over the whole dict and then a second one
agrees with the per-record composition whenever the former succeeds (the
two can fail with different error messages, so this is one-way). -/
theorem mapStageE_comp_ok (g h : Record → Except String Record)
    (x : List (String × Record)) :
    ∀ nf, (mapStageE g x >>= fun y => mapStageE h y) = Except.ok nf →
    mapStageE (fun r => g r >>= fun v => h v) x = Except.ok nf := by
  induction x with
  | nil =>
    intro nf hok
    exact hok
  | cons p t ih =>
    intro nf hok
    rw [mapStageE_cons] at hok
    rw [mapStageE_cons]
    cases hg : g p.2 with
    | error e =>
      rw [hg, except_error_bind, except_error_bind] at hok
      exact Except.noConfusion hok
    | ok r =>
      rw [hg, except_ok_bind] at hok
      rw [except_ok_bind]
      cases hgt : mapStageE g t with
      | error e =>
        rw [hgt, except_error_bind, except_error_bind] at hok
        exact Except.noConfusion hok
      | ok rs =>
        rw [hgt, except_ok_bind, except_pure_eq, except_ok_bind] at hok
        rw [mapStageE_cons_pair] at hok
        cases hh : h r with
        | error e =>
          rw [hh, except_error_bind] at hok
          exact Except.noConfusion hok
        | ok v =>
          rw [hh, except_ok_bind] at hok
          rw [except_ok_bind]
          cases hhr : mapStageE h rs with
          | error e =>
            rw [hhr, except_error_bind] at hok
            exact Except.noConfusion hok
          | ok vs =>
            rw [hhr, except_ok_bind, except_pure_eq] at hok
            have hcomp : mapStageE (fun r => g r >>= fun v => h v) t =
                Except.ok vs := by
              refine ih vs ?_
              rw [hgt, except_ok_bind, hhr]
            rw [hcomp, except_ok_bind, except_pure_eq]
            exact hok

/-- A successful run of the enrichment stages equals the per-record
composition of the updaters applied across the new-records dict. -/
theorem gisaid_new_enriched_ok (travel : Record → Record) (today : String)
    (vc : List String) (om : Option (List String))
    (lg : Option (List (String × String))) (entries nf : List (String × Record))
    (h : gisaid_new_enriched travel today vc om lg entries = Except.ok nf) :
    mapStageE (enrich_new_record travel today vc om lg) entries = Except.ok nf := by
  cases lg with
  | none =>
    have hshape : gisaid_new_enriched travel today vc om none entries =
        (mapStageE (get_admin_levels_from_json_dict true vc)
          (mapStage (update_edin_date_stamp_field today)
            (mapStage (fun r => update_edin_omitted_field r om) entries)) >>=
          fun new3 => pure (mapStage travel (mapStage check_gisaid_date new3))) := rfl
    rw [hshape] at h
    simp only [mapStage_mapStage, mapStageE_mapStage] at h
    rw [bind_mapStageE_pure_map] at h
    exact h
  | some L =>
    have hshape : gisaid_new_enriched travel today vc om (some L) entries =
        (mapStageE (get_admin_levels_from_json_dict true vc)
          (mapStage (update_edin_date_stamp_field today)
            (mapStage (fun r => update_edin_omitted_field r om) entries)) >>=
          fun new3 => mapStageE (fun r => update_edin_lineage_field r L)
            (mapStage travel (mapStage check_gisaid_date new3))) := rfl
    rw [hshape] at h
    simp only [mapStage_mapStage, mapStageE_mapStage] at h
    exact mapStageE_comp_ok _ _ entries nf h

/-- A successful fallible stage over entries built from an id list gives
pointwise successes and the pointwise-result entries. -/
theorem mapStageE_ok_eval (g : Record → Except String Record) (f : String → Record)
    (ids : List String) :
    ∀ nf, mapStageE g (ids.map (fun x => (x, f x))) = Except.ok nf →
    (∀ x ∈ ids, ∃ e, g (f x) = Except.ok e) ∧
    nf = ids.map (fun x => (x, (g (f x)).toOption.getD [])) := by
  induction ids with
  | nil =>
    intro nf h
    have h2 : (Except.ok ([] : List (String × Record)) : Except String _) =
        Except.ok nf := h
    have h3 : ([] : List (String × Record)) = nf := by injection h2
    refine ⟨fun x hx => absurd hx (List.not_mem_nil x), ?_⟩
    rw [← h3]
    rfl
  | cons x t ih =>
    intro nf h
    rw [List.map_cons, mapStageE_cons_pair] at h
    cases hg : g (f x) with
    | error e =>
      rw [hg, except_error_bind] at h
      exact Except.noConfusion h
    | ok r =>
      rw [hg, except_ok_bind] at h
      cases hrest : mapStageE g (t.map (fun y => (y, f y))) with
      | error e =>
        rw [hrest, except_error_bind] at h
        exact Except.noConfusion h
      | ok rs =>
        rw [hrest, except_ok_bind, except_pure_eq] at h
        have hnf : (x, r) :: rs = nf := by injection h
        obtain ⟨ha, hb⟩ := ih rs hrest
        subst hnf
        refine ⟨?_, ?_⟩
        · intro y hy
          rcases List.mem_cons.mp hy with h1 | h1
          · exact ⟨r, by rw [h1]; exact hg⟩
          · exact ha y h1
        · rw [List.map_cons, hg, ← hb]
          rfl

/-- The output of a successful converter run, given the loaded registry:
the header in the output column order, then the registry rows rendered in
that order, then one row per new accession id (JSON encounter order, kept
with duplicates), rendered from the per-record enrichment of the (last)
JSON record with that id. -/
theorem gisaid_run_structure (travel : Record → Record) (today : String)
    (vc : List String) (jsonObjs : List Record) (args_csv : Option (List String))
    (om : Option (List String)) (lg : Option (List (String × String)))
    (fext ord : List String) (dict : List (String × Record)) (out : List String)
    (hfe : gisaid_fields_ext args_csv = Except.ok fext)
    (hold : gisaid_old args_csv fext = Except.ok (ord, dict))
    (hrun : gisaid_json_2_metadata travel today vc jsonObjs args_csv om lg =
      Except.ok out) :
    (∀ x ∈ (get_json_order_and_record_dict jsonObjs (fields_gisaid ++ fields_edin)
          fext).1.filter (fun x => !(ord.contains x)),
      ∃ e, enrich_new_record travel today vc om lg
        (aGetD (get_json_order_and_record_dict jsonObjs
          (fields_gisaid ++ fields_edin) fext).2 x []) = Except.ok e) ∧
    out = joinSep "," (fields_edin ++ fext ++ fields_gisaid) ::
      (ord.map (fun r => get_one_line (aGetD dict r [])
        (fields_edin ++ fext ++ fields_gisaid)) ++
       ((get_json_order_and_record_dict jsonObjs (fields_gisaid ++ fields_edin)
          fext).1.filter (fun x => !(ord.contains x))).map
        (fun x => get_one_line
          ((enrich_new_record travel today vc om lg
            (aGetD (get_json_order_and_record_dict jsonObjs
              (fields_gisaid ++ fields_edin) fext).2 x [])).toOption.getD [])
          (fields_edin ++ fext ++ fields_gisaid))) := by
  simp only [gisaid_json_2_metadata, hfe, except_ok_bind, hold] at hrun
  cases henr : gisaid_new_enriched travel today vc om lg
      (((get_json_order_and_record_dict jsonObjs (fields_gisaid ++ fields_edin)
        fext).1.filter (fun x => !(ord.contains x))).map
        (fun x => (x, aGetD (get_json_order_and_record_dict jsonObjs
          (fields_gisaid ++ fields_edin) fext).2 x []))) with
  | error e =>
    rw [henr, except_error_bind] at hrun
    exact Except.noConfusion hrun
  | ok nf =>
    rw [henr, except_ok_bind, except_pure_eq] at hrun
    have hout : write_output
        ((get_json_order_and_record_dict jsonObjs (fields_gisaid ++ fields_edin)
          fext).1.filter (fun x => !(ord.contains x))) nf ord dict
        (fields_edin ++ fext ++ fields_gisaid) = out := by
      injection hrun
    obtain ⟨hallok, hnf⟩ := mapStageE_ok_eval
      (enrich_new_record travel today vc om lg)
      (fun x => aGetD (get_json_order_and_record_dict jsonObjs
        (fields_gisaid ++ fields_edin) fext).2 x [])
      ((get_json_order_and_record_dict jsonObjs (fields_gisaid ++ fields_edin)
        fext).1.filter (fun x => !(ord.contains x))) nf
      (gisaid_new_enriched_ok travel today vc om lg _ nf henr)
    refine ⟨hallok, ?_⟩
    rw [← hout, write_output]
    refine congrArg (fun l => joinSep "," (fields_edin ++ fext ++ fields_gisaid) ::
      (ord.map (fun r => get_one_line (aGetD dict r [])
        (fields_edin ++ fext ++ fields_gisaid)) ++ l)) ?_
    rw [hnf]
    refine List.map_congr_left ?_
    intro x hx
    rw [aGetD_map_self _ _ x [] hx]

set_option maxRecDepth 40000

set_option maxHeartbeats 2000000

theorem map_fst_map_pair {β : Type} (l : List String) (f : String → String)
    (g : String → β) :
    (l.map (fun r => (f r, g r))).map Prod.fst = l.map f := by
  rw [List.map_map]
  rfl

/-- Counterexample to claim C6: a registry whose header lists the same 21
mandatory columns in a different order than the output column order. The
run succeeds, but the existing row is re-rendered from its parsed dict in
the fixed output order, so it is not byte-identical to the registry row. -/
theorem C6_counterexample :
    gisaid_json_2_metadata get_travel_history_spec "2020-05-01" [] []
      (some [joinSep "," (fields_gisaid ++ fields_edin),
        "a,b,c,d,e,f,g,h,i,j,k,l,m,n,o,p,q,r,s,t,u"]) none none =
      Except.ok [canonHeaderLine,
        "n,o,p,q,r,s,t,u,,,a,b,c,d,e,f,g,h,i,j,k,l,m"] ∧
    ¬ ("n,o,p,q,r,s,t,u,,,a,b,c,d,e,f,g,h,i,j,k,l,m" =
       "a,b,c,d,e,f,g,h,i,j,k,l,m,n,o,p,q,r,s,t,u") := by
  refine ⟨by decide, by decide⟩

/-- Claim C6 (status: corrected). When the existing registry's header is
exactly the output column order and its data rows are pre-stripped with
pairwise-distinct accession ids, a successful converter run writes every
existing row byte-identical, all existing rows first in original order,
and then the new records (ids absent from the registry) in JSON encounter
order, each enriched from its (last) JSON record. -/
theorem C6_amended (travel : Record → Record) (today : String)
    (vc : List String) (jsonObjs : List Record)
    (om : Option (List String)) (lg : Option (List (String × String)))
    (csvRows : List String) (out : List String)
    (hstrip : ∀ r ∈ csvRows, pyStrip r = r)
    (hnd : (csvRows.map (csv_row_id canonFields (fields_gisaid ++ fields_edin)
      fields0)).Nodup)
    (hrun : gisaid_json_2_metadata travel today vc jsonObjs
      (some (canonHeaderLine :: csvRows)) om lg = Except.ok out) :
    out = canonHeaderLine :: (csvRows ++
      ((get_json_order_and_record_dict jsonObjs (fields_gisaid ++ fields_edin)
        fields0).1.filter (fun x =>
          !((csvRows.map (csv_row_id canonFields (fields_gisaid ++ fields_edin)
            fields0)).contains x))).map
        (fun x => get_one_line
          ((enrich_new_record travel today vc om lg
            (aGetD (get_json_order_and_record_dict jsonObjs
              (fields_gisaid ++ fields_edin) fields0).2 x [])).toOption.getD [])
          canonFields)) ∧
    ∀ x ∈ (get_json_order_and_record_dict jsonObjs (fields_gisaid ++ fields_edin)
        fields0).1.filter (fun x =>
          !((csvRows.map (csv_row_id canonFields (fields_gisaid ++ fields_edin)
            fields0)).contains x)),
      ∃ e, enrich_new_record travel today vc om lg
        (aGetD (get_json_order_and_record_dict jsonObjs
          (fields_gisaid ++ fields_edin) fields0).2 x []) = Except.ok e := by
  have hfe0 : gisaid_fields_ext (some [canonHeaderLine]) =
      Except.ok fields0 := by decide
  have hfe : gisaid_fields_ext (some (canonHeaderLine :: csvRows)) =
      Except.ok fields0 := hfe0
  have hkeys : pySplit ',' (pyStrip canonHeaderLine) = canonFields := by decide
  cases hold : gisaid_old (some (canonHeaderLine :: csvRows)) fields0 with
  | error e =>
    exfalso
    simp only [gisaid_json_2_metadata, hfe, except_ok_bind, hold,
      except_error_bind] at hrun
    exact Except.noConfusion hrun
  | ok od =>
    have hcsv : csvRows.foldlM
        (csv_row_step canonFields (fields_gisaid ++ fields_edin) fields0)
        ([], []) = Except.ok od := by
      rw [← hkeys]
      exact hold
    obtain ⟨hlens, hord, hdict⟩ := csv_foldM_ok canonFields
      (fields_gisaid ++ fields_edin) fields0 csvRows ([], []) od hcsv
    have hord' : od.1 = csvRows.map
        (csv_row_id canonFields (fields_gisaid ++ fields_edin) fields0) := by
      simpa using hord
    have hdict' : od.2 = (csvRows.map (fun r =>
        (csv_row_id canonFields (fields_gisaid ++ fields_edin) fields0 r,
         csv_row_record canonFields (fields_gisaid ++ fields_edin) fields0 r))).foldl
      (fun d p => aSet d p.1 p.2) [] := by
      simpa using hdict
    obtain ⟨hallok, hout⟩ := gisaid_run_structure travel today vc jsonObjs
      (some (canonHeaderLine :: csvRows)) om lg fields0 od.1 od.2 out hfe hold hrun
    have holdmap : od.1.map (fun r => get_one_line (aGetD od.2 r [])
        (fields_edin ++ fields0 ++ fields_gisaid)) = csvRows := by
      rw [hord', List.map_map]
      have hstep : ∀ r ∈ csvRows,
          ((fun r => get_one_line (aGetD od.2 r [])
            (fields_edin ++ fields0 ++ fields_gisaid)) ∘
           csv_row_id canonFields (fields_gisaid ++ fields_edin) fields0) r = r := by
        intro r hr
        show get_one_line (aGetD od.2
          (csv_row_id canonFields (fields_gisaid ++ fields_edin) fields0 r) [])
          (fields_edin ++ fields0 ++ fields_gisaid) = r
        have hndp : ((csvRows.map (fun r =>
            (csv_row_id canonFields (fields_gisaid ++ fields_edin) fields0 r,
             csv_row_record canonFields (fields_gisaid ++ fields_edin) fields0 r))).map
            Prod.fst).Nodup := by
          rw [map_fst_map_pair]
          exact hnd
        have hmem : (csv_row_id canonFields (fields_gisaid ++ fields_edin) fields0 r,
            csv_row_record canonFields (fields_gisaid ++ fields_edin) fields0 r) ∈
            csvRows.map (fun r =>
              (csv_row_id canonFields (fields_gisaid ++ fields_edin) fields0 r,
               csv_row_record canonFields (fields_gisaid ++ fields_edin) fields0 r)) :=
          List.mem_map_of_mem _ hr
        rw [hdict', aGetD_foldl_aSet_mem _ _ _ _ [] hndp hmem]
        exact row_roundtrip r (hstrip r hr) (hlens r hr)
      rw [List.map_congr_left hstep]
      exact List.map_id csvRows
    rw [holdmap] at hout
    rw [hord'] at hout hallok
    exact ⟨hout, hallok⟩

/-- Claim C10 (status: confirmed). Two JSON dump lines sharing an
accession id absent from the existing registry produce two identical
output rows, both rendering the record parsed from the last such line. -/
theorem C10_duplicate_json (travel : Record → Record) (today : String)
    (vc : List String) (d1 d2 : Record) (args_csv : Option (List String))
    (om : Option (List String)) (lg : Option (List (String × String)))
    (fext ord : List String) (dict : List (String × Record)) (out : List String)
    (hfe : gisaid_fields_ext args_csv = Except.ok fext)
    (hold : gisaid_old args_csv fext = Except.ok (ord, dict))
    (hid : getF (json_record (fields_gisaid ++ fields_edin) fext d2)
        "covv_accession_id" =
      getF (json_record (fields_gisaid ++ fields_edin) fext d1) "covv_accession_id")
    (hnew : getF (json_record (fields_gisaid ++ fields_edin) fext d1)
        "covv_accession_id" ∉ ord)
    (hrun : gisaid_json_2_metadata travel today vc [d1, d2] args_csv om lg =
      Except.ok out) :
    ∃ e, enrich_new_record travel today vc om lg
        (json_record (fields_gisaid ++ fields_edin) fext d2) = Except.ok e ∧
      out = joinSep "," (fields_edin ++ fext ++ fields_gisaid) ::
        (ord.map (fun r => get_one_line (aGetD dict r [])
          (fields_edin ++ fext ++ fields_gisaid)) ++
         [get_one_line e (fields_edin ++ fext ++ fields_gisaid),
          get_one_line e (fields_edin ++ fext ++ fields_gisaid)]) := by
  obtain ⟨hallok, hout⟩ := gisaid_run_structure travel today vc [d1, d2] args_csv
    om lg fext ord dict out hfe hold hrun
  have hall : get_json_order_and_record_dict [d1, d2]
      (fields_gisaid ++ fields_edin) fext =
      ([getF (json_record (fields_gisaid ++ fields_edin) fext d1)
          "covv_accession_id",
        getF (json_record (fields_gisaid ++ fields_edin) fext d1)
          "covv_accession_id"],
       [(getF (json_record (fields_gisaid ++ fields_edin) fext d1)
          "covv_accession_id",
         json_record (fields_gisaid ++ fields_edin) fext d2)]) := by
    simp only [get_json_order_and_record_dict, List.foldl_cons, List.foldl_nil]
    rw [hid]
    simp [aSet]
  simp only [hall] at hallok hout
  have hfilter : ([getF (json_record (fields_gisaid ++ fields_edin) fext d1)
        "covv_accession_id",
      getF (json_record (fields_gisaid ++ fields_edin) fext d1)
        "covv_accession_id"] : List String).filter
      (fun x => !(ord.contains x)) =
      [getF (json_record (fields_gisaid ++ fields_edin) fext d1)
        "covv_accession_id",
       getF (json_record (fields_gisaid ++ fields_edin) fext d1)
        "covv_accession_id"] := by
    simp [List.filter, hnew]
  rw [hfilter] at hallok hout
  have hget : aGetD [(getF (json_record (fields_gisaid ++ fields_edin) fext d1)
        "covv_accession_id",
      json_record (fields_gisaid ++ fields_edin) fext d2)]
      (getF (json_record (fields_gisaid ++ fields_edin) fext d1)
        "covv_accession_id") ([] : Record) =
      json_record (fields_gisaid ++ fields_edin) fext d2 := by
    simp [aGetD]
  obtain ⟨e, he⟩ := hallok (getF (json_record (fields_gisaid ++ fields_edin)
    fext d1) "covv_accession_id") (by simp)
  rw [hget] at he
  refine ⟨e, he, ?_⟩
  rw [hout]
  simp [hget, he, Except.toOption]

/-- Witness for C6: a one-row canonical registry and one new JSON record. -/
theorem C6_amended_witness :
    ["edin_admin_0,edin_admin_1,edin_admin_2,edin_lineage,edin_travel,edin_omitted,edin_date_stamp,edin_flag,edin_epi_week,edin_annotation,covv_accession_id,covv_virus_name,covv_location,covv_collection_date,covv_add_host_info,covv_assembly_method,covv_gender,covv_host,covv_passage,covv_patient_age,covv_seq_technology,covv_specimen,covv_subm_date",
     "a0,a1,a2,lin,trav,om,ds,fl,ew,an,EPI1,vn,loc,cd,ahi,am,g,h,p,pa,st,sp,sd",
     "Russia,Omsk,,,,,2020-05-01,,,,EPI2,hCoV-19/Russia/M2/2020,Europe / Russia / Omsk,2020-01-06,,,,,,,,,"] =
      canonHeaderLine ::
        (["a0,a1,a2,lin,trav,om,ds,fl,ew,an,EPI1,vn,loc,cd,ahi,am,g,h,p,pa,st,sp,sd"] ++
        ((get_json_order_and_record_dict
            [[("covv_accession_id", "EPI2"),
              ("covv_virus_name", "hCoV-19/Russia/M2/2020"),
              ("covv_location", "Europe / Russia / Omsk"),
              ("covv_collection_date", "2020-01-06")]]
            (fields_gisaid ++ fields_edin) fields0).1.filter (fun x =>
          !((["a0,a1,a2,lin,trav,om,ds,fl,ew,an,EPI1,vn,loc,cd,ahi,am,g,h,p,pa,st,sp,sd"].map
            (csv_row_id canonFields (fields_gisaid ++ fields_edin)
              fields0)).contains x))).map
        (fun x => get_one_line
          ((enrich_new_record get_travel_history_spec "2020-05-01" [] none none
            (aGetD (get_json_order_and_record_dict
              [[("covv_accession_id", "EPI2"),
                ("covv_virus_name", "hCoV-19/Russia/M2/2020"),
                ("covv_location", "Europe / Russia / Omsk"),
                ("covv_collection_date", "2020-01-06")]]
              (fields_gisaid ++ fields_edin) fields0).2 x [])).toOption.getD [])
          canonFields)) :=
  (C6_amended get_travel_history_spec "2020-05-01" []
    [[("covv_accession_id", "EPI2"),
      ("covv_virus_name", "hCoV-19/Russia/M2/2020"),
      ("covv_location", "Europe / Russia / Omsk"),
      ("covv_collection_date", "2020-01-06")]]
    none none
    ["a0,a1,a2,lin,trav,om,ds,fl,ew,an,EPI1,vn,loc,cd,ahi,am,g,h,p,pa,st,sp,sd"]
    ["edin_admin_0,edin_admin_1,edin_admin_2,edin_lineage,edin_travel,edin_omitted,edin_date_stamp,edin_flag,edin_epi_week,edin_annotation,covv_accession_id,covv_virus_name,covv_location,covv_collection_date,covv_add_host_info,covv_assembly_method,covv_gender,covv_host,covv_passage,covv_patient_age,covv_seq_technology,covv_specimen,covv_subm_date",
     "a0,a1,a2,lin,trav,om,ds,fl,ew,an,EPI1,vn,loc,cd,ahi,am,g,h,p,pa,st,sp,sd",
     "Russia,Omsk,,,,,2020-05-01,,,,EPI2,hCoV-19/Russia/M2/2020,Europe / Russia / Omsk,2020-01-06,,,,,,,,,"]
    (by decide) (by decide) (by decide)).1

/-- Witness for C10: two JSON lines with the same accession id against an
empty registry. -/
theorem C10_duplicate_json_witness :
    ∃ e, enrich_new_record get_travel_history_spec "2020-05-01" [] none none
        (json_record (fields_gisaid ++ fields_edin) fields0
          [("covv_accession_id", "EPI2"),
           ("covv_virus_name", "hCoV-19/Russia/M2/2020"),
           ("covv_location", "Europe / Russia / Omsk"),
           ("covv_collection_date", "2020-01-06")]) = Except.ok e ∧
      ["edin_admin_0,edin_admin_1,edin_admin_2,edin_lineage,edin_travel,edin_omitted,edin_date_stamp,edin_flag,edin_epi_week,edin_annotation,covv_accession_id,covv_virus_name,covv_location,covv_collection_date,covv_add_host_info,covv_assembly_method,covv_gender,covv_host,covv_passage,covv_patient_age,covv_seq_technology,covv_specimen,covv_subm_date",
       "Russia,Omsk,,,,,2020-05-01,,,,EPI2,hCoV-19/Russia/M2/2020,Europe / Russia / Omsk,2020-01-06,,,,,,,,,",
       "Russia,Omsk,,,,,2020-05-01,,,,EPI2,hCoV-19/Russia/M2/2020,Europe / Russia / Omsk,2020-01-06,,,,,,,,,"] =
        joinSep "," (fields_edin ++ fields0 ++ fields_gisaid) ::
        (([] : List String).map (fun r =>
          get_one_line (aGetD ([] : List (String × Record)) r [])
            (fields_edin ++ fields0 ++ fields_gisaid)) ++
         [get_one_line e (fields_edin ++ fields0 ++ fields_gisaid),
          get_one_line e (fields_edin ++ fields0 ++ fields_gisaid)]) :=
  C10_duplicate_json get_travel_history_spec "2020-05-01" []
    [("covv_accession_id", "EPI2"),
     ("covv_virus_name", "hCoV-19/Russia/M1/2020"),
     ("covv_location", "Europe / Russia / Moscow"),
     ("covv_collection_date", "2020-01-05")]
    [("covv_accession_id", "EPI2"),
     ("covv_virus_name", "hCoV-19/Russia/M2/2020"),
     ("covv_location", "Europe / Russia / Omsk"),
     ("covv_collection_date", "2020-01-06")]
    none none none fields0 [] [] _
    (by decide) (by decide) (by decide) (by decide) (by decide)

end Datafunk

